import Mathlib

/-!
Verification development for the savorit recipe-extraction core.

The TypeScript source is shallowly embedded: strings are Lean `String`s
manipulated through their character lists, JavaScript numbers are modelled
by exact unreduced fractions over `Int` (`Frac` below; the handful of
constants the code uses — 0.35, 0.3, 0.06, … — are exactly representable,
so exact arithmetic coincides with the JS doubles away from representation
noise), and JSON values are an inductive `Json` type.  Each embedded
definition carries the name of the source function it translates.
-/

namespace Savorit

/-! ## Exact fractions modelling JavaScript numbers

Unreduced integer fractions.  All fractions built by the embedded code have
positive denominators (the only exception would be a source string with a
literal zero denominator such as "1/0", where JavaScript produces Infinity;
that degenerate case is outside the model).  Comparisons are by
cross-multiplication, which is exact and kernel-computable. -/

structure Frac where
  num : Int
  den : Int
deriving Repr, DecidableEq

/-- Embed an integer. -/
def Frac.ofInt (n : Int) : Frac := ⟨n, 1⟩

/-- Fraction addition (no normalisation). -/
def Frac.add (a b : Frac) : Frac := ⟨a.num * b.den + b.num * a.den, a.den * b.den⟩

/-- Fraction subtraction (no normalisation). -/
def Frac.sub (a b : Frac) : Frac := ⟨a.num * b.den - b.num * a.den, a.den * b.den⟩

/-- Fraction multiplication (no normalisation). -/
def Frac.mul (a b : Frac) : Frac := ⟨a.num * b.num, a.den * b.den⟩

/-- Strict order by cross-multiplication (valid for positive denominators). -/
def Frac.blt (a b : Frac) : Bool := a.num * b.den < b.num * a.den

/-- Non-strict order by cross-multiplication (valid for positive denominators). -/
def Frac.ble (a b : Frac) : Bool := a.num * b.den ≤ b.num * a.den

/-- Value equality by cross-multiplication (valid for positive denominators). -/
def Frac.beqv (a b : Frac) : Bool := a.num * b.den == b.num * a.den

/-- Absolute value. -/
def Frac.abs (a : Frac) : Frac := if a.num < 0 then ⟨-a.num, a.den⟩ else a

/-- Math.floor, for positive denominators. -/
def Frac.floor (a : Frac) : Int := Int.fdiv a.num a.den

/-- The rational value of a fraction, for stating specifications. -/
def Frac.val (a : Frac) : ℚ := (a.num : ℚ) / (a.den : ℚ)

/-! ## JavaScript string model

All operations work on the character list of a `String`.  JavaScript string
lengths count UTF-16 code units, so characters outside the basic
multilingual plane count twice (`lenJS`). -/

/-- Characters the JavaScript `\s` class and `String.prototype.trim` treat as
whitespace (the white-space and line-terminator sets coincide for our
purposes). -/
def jsWS (c : Char) : Bool :=
  c == ' ' || c == '\t' || c == '\n' || c == '\r' ||
  c.toNat == 0x0b || c.toNat == 0x0c || c.toNat == 0xa0 || c.toNat == 0x1680 ||
  (0x2000 ≤ c.toNat && c.toNat ≤ 0x200a) || c.toNat == 0x2028 || c.toNat == 0x2029 ||
  c.toNat == 0x202f || c.toNat == 0x205f || c.toNat == 0x3000 || c.toNat == 0xfeff

/-- UTF-16 length of one character. -/
def charLen16 (c : Char) : Nat := if 0x10000 ≤ c.toNat then 2 else 1

/-- JavaScript `String.prototype.length` (UTF-16 code units). -/
def lenJS (s : String) : Nat := (s.data.map charLen16).sum

/-- Left trim of a character list. -/
def trimLeftL (l : List Char) : List Char := l.dropWhile jsWS

/-- Right trim of a character list. -/
def trimRightL (l : List Char) : List Char := (l.reverse.dropWhile jsWS).reverse

/-- JavaScript `String.prototype.trim`. -/
def trimS (s : String) : String := ⟨trimRightL (trimLeftL s.data)⟩

/-- Split on newline characters, with JavaScript `split("\n")` semantics
(empty pieces kept). -/
def splitNLAux : List Char → List Char → List (List Char)
  | [], cur => [cur.reverse]
  | c :: t, cur => if c == '\n' then cur.reverse :: splitNLAux t [] else splitNLAux t (c :: cur)

/-- JavaScript `caption.split("\n")`. -/
def splitNL (s : String) : List String := (splitNLAux s.data []).map fun l => ⟨l⟩

/-- Boolean string-prefix test on the underlying character lists. -/
def strHasPre (s pre : String) : Bool := pre.data.isPrefixOf s.data

/-- Substring containment on character lists. -/
def containsSubL : List Char → List Char → Bool
  | l, pat =>
    pat.isPrefixOf l ||
      match l with
      | [] => false
      | _ :: t => containsSubL t pat

/-- JavaScript `String.prototype.includes`. -/
def containsStr (s pat : String) : Bool := containsSubL s.data pat.data

/-- ASCII lowercase letter. -/
def isAsciiLower (c : Char) : Bool := 'a' ≤ c && c ≤ 'z'

/-- ASCII uppercase letter. -/
def isAsciiUpper (c : Char) : Bool := 'A' ≤ c && c ≤ 'Z'

/-- ASCII letter. -/
def isAsciiAlpha (c : Char) : Bool := isAsciiLower c || isAsciiUpper c

/-- The JavaScript regex `\w` class: ASCII letters, digits, underscore. -/
def isWordChar (c : Char) : Bool := isAsciiAlpha c || c.isDigit || c == '_'

/-- Case folding used by the `/i` regex flag and `toLowerCase`, restricted to
ASCII plus the Latin letters that actually occur in the source vocabularies
(å ä ö ü é). -/
def lowerChar (c : Char) : Char :=
  if isAsciiUpper c then Char.ofNat (c.toNat + 32)
  else if c == 'Å' then 'å'
  else if c == 'Ä' then 'ä'
  else if c == 'Ö' then 'ö'
  else if c == 'Ü' then 'ü'
  else if c == 'É' then 'é'
  else c

/-- Uppercasing, inverse direction of `lowerChar`. -/
def upperChar (c : Char) : Char :=
  if isAsciiLower c then Char.ofNat (c.toNat - 32)
  else if c == 'å' then 'Å'
  else if c == 'ä' then 'Ä'
  else if c == 'ö' then 'Ö'
  else if c == 'ü' then 'Ü'
  else if c == 'é' then 'É'
  else c

/-- JavaScript `toLowerCase` over the modelled alphabet. -/
def toLowerS (s : String) : String := ⟨s.data.map lowerChar⟩

/-- JavaScript `toUpperCase` over the modelled alphabet. -/
def toUpperS (s : String) : String := ⟨s.data.map upperChar⟩

/-- Digit run at the head of a list. -/
def digitsToNat (l : List Char) : Nat := l.foldl (fun a c => a * 10 + (c.toNat - 48)) 0

/-! ## Regex models for the Instagram caption parser (src/app/actions.ts)

Each definition models one regex literal of the source, on already
lower-cased input where the regex carries the `/i` flag. -/

/-- Rest of `d` after the literal `pre`, when `pre` is a prefix. -/
def afterPre (d pre : List Char) : Option (List Char) :=
  if pre.isPrefixOf d then some (d.drop pre.length) else none

/-- Word boundary (`\b`) immediately after a match: next character is absent
or not a `\w` character. -/
def wordBoundaryAfter (r : List Char) : Bool :=
  match r with
  | [] => true
  | c :: _ => !isWordChar c

/-- Literal word at the head of `d` followed by a `\b` boundary. -/
def wordAtHead (d : List Char) (w : List Char) : Bool :=
  w.isPrefixOf d && wordBoundaryAfter (d.drop w.length)

/-- Tokens separated by `\s+`, matched as a prefix of `d` (each token must be
followed by at least one whitespace character before the next). -/
def seqWsTokens : List Char → List (List Char) → Bool
  | _, [] => true
  | d, [w] => w.isPrefixOf d
  | d, w :: w2 :: ws =>
    match afterPre d w with
    | none => false
    | some r =>
      let a := r.takeWhile jsWS
      !a.isEmpty && seqWsTokens (r.drop a.length) (w2 :: ws)

/-- The `comment\s+.{0,30}(send|dm|get)` alternative of `JUNK_RE`: after
"comment" comes at least one whitespace character, then within a window
of whitespace-or-any characters (at most 30 beyond the mandatory
whitespace run) one of the three verbs starts. -/
def junkCommentAlt (d : List Char) : Bool :=
  match afterPre d "comment".data with
  | none => false
  | some r =>
    let a := (r.takeWhile jsWS).length
    if a == 0 then false
    else
      (List.range (a + 30)).any fun k =>
        let off := k + 1
        off ≤ a + 30 &&
          (("send".data.isPrefixOf (r.drop off)) ||
           ("dm".data.isPrefixOf (r.drop off)) ||
           ("get".data.isPrefixOf (r.drop off)))

/-- Model of `JUNK_RE` (case-insensitive, anchored at the line start):
social-media boilerplate lines. -/
def junkRE (s : String) : Bool :=
  let d := (toLowerS s).data
  let ds := d.takeWhile Char.isDigit
  ("view all ".data.isPrefixOf d && (d.drop 9).head?.any Char.isDigit) ||
  d == "like".data ||
  (!ds.isEmpty && (d.drop ds.length == " like".data || d.drop ds.length == " likes".data)) ||
  "liked by".data.isPrefixOf d ||
  "add a comment".data.isPrefixOf d ||
  "log in".data.isPrefixOf d ||
  "sign up".data.isPrefixOf d ||
  junkCommentAlt d ||
  seqWsTokens d ["follow".data, "me".data] ||
  seqWsTokens d ["save".data, "this".data] ||
  seqWsTokens d ["share".data, "this".data] ||
  seqWsTokens d ["link".data, "in".data, "bio".data] ||
  seqWsTokens d ["tag".data, "a".data, "friend".data] ||
  (match afterPre d "double".data with
   | none => false
   | some r => "tap".data.isPrefixOf r || (!r.isEmpty && "tap".data.isPrefixOf r.tail)) ||
  seqWsTokens d ["dm".data, "me".data] ||
  (match afterPre d "click".data with
   | none => false
   | some r =>
     let a := r.takeWhile jsWS
     !a.isEmpty &&
       (let r2 := r.drop a.length
        "link".data.isPrefixOf r2 ||
          (match afterPre r2 "the".data with
           | none => false
           | some r3 =>
             let b := r3.takeWhile jsWS
             !b.isEmpty && "link".data.isPrefixOf (r3.drop b.length))))

/-- Approximation of the Unicode `Emoji` binary property used by
`HASHTAG_HEAVY_RE` (which notably includes the ASCII digits, `#` and `*`),
covering the ranges that occur in practice. -/
def isEmojiChar (c : Char) : Bool :=
  let v := c.toNat
  c.isDigit || c == '#' || c == '*' ||
  v == 0xa9 || v == 0xae || v == 0x203c || v == 0x2049 || v == 0x2122 || v == 0x2139 ||
  (0x2194 ≤ v && v ≤ 0x21aa) || (0x231a ≤ v && v ≤ 0x23fa) ||
  (0x25aa ≤ v && v ≤ 0x25fe) || (0x2600 ≤ v && v ≤ 0x27bf) ||
  (0x2b00 ≤ v && v ≤ 0x2bff) || v == 0x3030 || v == 0x303d || v == 0x3297 || v == 0x3299 ||
  (0x1f000 ≤ v && v ≤ 0x1faff) || v == 0xfe0f || v == 0x20e3

/-- Model of `HASHTAG_HEAVY_RE = /^[#@\s\p{Emoji}]+$/u`: a non-empty line made
only of hashtag marks, mentions, whitespace and emoji. -/
def hashtagHeavyRE (s : String) : Bool :=
  !s.data.isEmpty && s.data.all fun c => c == '#' || c == '@' || jsWS c || isEmojiChar c

/-- Character scan for `/#\S+/g`: the flag records whether the scan is inside
a hashtag match (a match starts at `#` followed by a non-whitespace
character and greedily absorbs every following non-whitespace character). -/
def hashtagCharsGo : List Char → Bool → Nat
  | [], _ => 0
  | c :: t, true =>
    if !jsWS c then charLen16 c + hashtagCharsGo t true else hashtagCharsGo t false
  | c :: t, false =>
    if c == '#' && t.head?.any (fun x => !jsWS x) then
      charLen16 c + hashtagCharsGo t true
    else hashtagCharsGo t false

/-- Total UTF-16 length of all matches of `/#\S+/g` in the line. -/
def hashtagChars (l : List Char) : Nat := hashtagCharsGo l false

/-- The final filter of `cleanInstagramCaption`: drop a line when its hashtag
matches make up at least half of its UTF-16 length. -/
def hashtagShareOK (l : String) : Bool :=
  if hashtagChars l.data == 0 then true
  else 2 * hashtagChars l.data < lenJS l

/-- Model of `cleanInstagramCaption` (src/app/actions.ts): split, trim, drop
empty, junk, hashtag/emoji-only and hashtag-heavy lines. -/
def cleanInstagramCaption (raw : String) : List String :=
  (((((splitNL raw).map trimS).filter fun l => !l.data.isEmpty).filter
    fun l => !junkRE l).filter fun l => !hashtagHeavyRE l).filter hashtagShareOK

/-- The bare-handle test of `stripUsername`:
`/^[a-zA-Z_][a-zA-Z0-9._]{1,30}$/.test(first) && first.length <= 30`. -/
def usernameLike (s : String) : Bool :=
  match s.data with
  | [] => false
  | c :: t =>
    (isAsciiAlpha c || c == '_') &&
    t.all (fun x => isAsciiAlpha x || x.isDigit || x == '.' || x == '_') &&
    1 ≤ t.length && t.length ≤ 30 && lenJS s ≤ 30

/-- Model of `stripUsername` (src/app/actions.ts): drop a leading bare-handle
line when at least two lines remain. -/
def stripUsername (lines : List String) : List String :=
  match lines with
  | first :: second :: rest => if usernameLike first then second :: rest else lines
  | _ => lines

/-- Model of `SERVINGS_RE =
`/^(\d+[-–]\d+|\d+)\s*(portioner|servings?|pers(oner)?|portions?)\.?$/i`. -/
def servingsRE (s : String) : Bool :=
  let d := (toLowerS s).data
  let d1 := d.takeWhile Char.isDigit
  if d1.isEmpty then false
  else
    let r0 := d.drop d1.length
    let r1 :=
      match r0 with
      | c :: t =>
        if c == '-' || c.toNat == 0x2013 then
          let d2 := t.takeWhile Char.isDigit
          if d2.isEmpty then r0 else t.drop d2.length
        else r0
      | [] => r0
    let r2 := r1.dropWhile jsWS
    ["portioner", "personer", "pers", "portions", "portion", "servings", "serving"].any
      fun w =>
        (w.data.isPrefixOf r2) &&
          (let rest := r2.drop w.data.length
           rest == [] || rest == ['.'])

/-- Model of `extractServings` (src/app/actions.ts): the first line that is
entirely a servings mention is remembered (as the whole line, which is what
`m[0]` is for this doubly-anchored regex) and removed; all other lines are
kept in order. -/
def extractServingsGo : List String → Option String → Option String × List String
  | [], acc => (acc, [])
  | l :: t, acc =>
    if acc.isNone && servingsRE l then extractServingsGo t (some l)
    else
      let r := extractServingsGo t acc
      (r.1, l :: r.2)

/-- Entry point of the servings scan. -/
def extractServings (lines : List String) : Option String × List String :=
  extractServingsGo lines none

/-- Model of `/^ingredients?\b/i`: the line starts with the word
"ingredient" or "ingredients" at a word boundary. -/
def ingHeaderRE (s : String) : Bool :=
  let d := (toLowerS s).data
  wordAtHead d "ingredients".data || wordAtHead d "ingredient".data

/-- Model of the instruction-header regex
`/^(instructions?|directions?|method|steps|how to make|preparation|gör så här|instruktioner|tillagning)\b/i`. -/
def insHeaderRE (s : String) : Bool :=
  let d := (toLowerS s).data
  ["instructions", "instruction", "directions", "direction", "method", "steps",
    "how to make", "preparation", "gör så här", "instruktioner", "tillagning"].any
    fun w => wordAtHead d w.data

/-- The bullet characters of the class `[-•·◦▪⁃*]`. -/
def isBulletChar (c : Char) : Bool :=
  c == '-' || c == '•' || c == '·' || c == '◦' || c == '▪' || c == '⁃' || c == '*'

/-- Model of `/^[-•·◦▪⁃*]\s/`: bullet character followed by whitespace. -/
def bulletStartRE (s : String) : Bool :=
  match s.data with
  | c :: w :: _ => isBulletChar c && jsWS w
  | _ => false

/-- Model of `.replace(/^[-•·◦▪⁃*]\s*/, "")`: strip one leading bullet and the
following whitespace run. -/
def stripBullet (s : String) : String :=
  match s.data with
  | c :: t => if isBulletChar c then ⟨t.dropWhile jsWS⟩ else s
  | [] => s

/-- The character class `[.):\s-]` of the step-number pattern. -/
def stepNumClass (c : Char) : Bool :=
  c == '.' || c == ')' || c == ':' || jsWS c || c == '-'

/-- Digits followed by at least one `[.):\s-]` character, returning the rest. -/
def stripStepNumCore (d : List Char) : Option (List Char) :=
  let ds := d.takeWhile Char.isDigit
  if ds.isEmpty then none
  else
    let r := d.drop ds.length
    let cls := r.takeWhile stepNumClass
    if cls.isEmpty then none else some (r.drop cls.length)

/-- Model of `.replace(/^(?:step\s*)?\d+[.):\s-]+/i, "")`: strip an optional
"step" word, a step number and its punctuation. -/
def stripStepNum (s : String) : String :=
  let d := s.data
  let withStep : Option (List Char) :=
    if (d.take 4).map lowerChar == "step".data then
      stripStepNumCore ((d.drop 4).dropWhile jsWS)
    else none
  match withStep with
  | some r => ⟨r⟩
  | none =>
    match stripStepNumCore d with
    | some r => ⟨r⟩
    | none => s

/-- Model of `/^\d+[.)]\s/`: numbered-step line start. -/
def numStepRE (s : String) : Bool :=
  let d := s.data
  let ds := d.takeWhile Char.isDigit
  !ds.isEmpty &&
    (match d.drop ds.length with
     | c :: w :: _ => (c == '.' || c == ')') && jsWS w
     | _ => false)

/-- Model of `.replace(/^\d+[.)]\s*/, "")`. -/
def stripNumStep (s : String) : String :=
  let d := s.data
  let ds := d.takeWhile Char.isDigit
  if ds.isEmpty then s
  else
    match d.drop ds.length with
    | c :: t => if c == '.' || c == ')' then ⟨t.dropWhile jsWS⟩ else s
    | [] => s

/-- Scan every position of `d` for `test`, honouring the `\b` boundary before
the position (`prev` records whether the previous character was a `\w`
character). -/
def scanBoundary (test : List Char → Bool) : List Char → Bool → Bool
  | d, prev =>
    (!prev && test d) ||
      match d with
      | [] => false
      | c :: t => scanBoundary test t (isWordChar c)

/-- Word-boundary-delimited containment of any of the given words,
case-insensitively (`/\b(w1|w2|…)\b/i`). -/
def containsWordCI (s : String) (ws : List String) : Bool :=
  scanBoundary (fun d => ws.any fun w => wordAtHead d w.data) (toLowerS s).data false

/-- Model of `UNITS_RE` (the multilingual measurement-unit vocabulary). -/
def unitsRE (s : String) : Bool :=
  containsWordCI s
    ["msk", "tsk", "dl", "cl", "ml", "l", "krm", "st", "kopp", "paket", "tetra",
     "nypa", "burk", "klyftor", "klyfto", "knippe", "cup", "cups", "tbsp", "tsp",
     "tablespoons", "tablespoon", "teaspoons", "teaspoon", "oz", "ounces", "ounce",
     "lb", "lbs", "pounds", "pound", "g", "kg", "bunch", "cloves", "clove",
     "cans", "can", "pinch", "dash", "pint", "quart", "gallon", "sticks", "stick",
     "heads", "head"]

/-- The `ha\s+i` alternative of the cooking-verb vocabulary, tested at one
position. -/
def haIAtHead (d : List Char) : Bool :=
  match afterPre d "ha".data with
  | none => false
  | some r =>
    let a := r.takeWhile jsWS
    !a.isEmpty &&
      (match r.drop a.length with
       | 'i' :: rr => wordBoundaryAfter rr
       | _ => false)

/-- Model of `COOKING_VERBS_RE` (English and Swedish cooking verbs). -/
def cookingVerbsRE (s : String) : Bool :=
  let words : List String :=
    ["cook", "bake", "fry", "sauté", "sautee", "boil", "simmer", "stir", "mix",
     "chop", "dice", "slice", "preheat", "heat", "add", "pour", "combine",
     "whisk", "fold", "season", "serve", "drain", "rinse", "set aside", "remove",
     "place", "spread", "transfer", "reduce", "bring", "roast", "grill", "broil",
     "steam", "blanch", "marinate", "toss", "garnish", "stek", "koka", "fräs",
     "blanda", "skär", "hacka", "rör", "sjud", "häll", "servera", "smaksätt",
     "låt", "vänd", "avsluta", "smält", "sila", "ringla", "tillsätt", "krydda",
     "lägg"]
  scanBoundary (fun d => (words.any fun w => wordAtHead d w.data) || haIAtHead d)
    (toLowerS s).data false

/-- The `i\s+(bitar|skivor|mindre\s+bitar)` alternative of `PREP_WORDS_RE`,
tested at one position (with the trailing `\b`). -/
def iPiecesAtHead (d : List Char) : Bool :=
  match d with
  | 'i' :: r =>
    let a := r.takeWhile jsWS
    !a.isEmpty &&
      (let r2 := r.drop a.length
       wordAtHead r2 "bitar".data || wordAtHead r2 "skivor".data ||
         (match afterPre r2 "mindre".data with
          | none => false
          | some r3 =>
            let b := r3.takeWhile jsWS
            !b.isEmpty && wordAtHead (r3.drop b.length) "bitar".data))
  | _ => false

/-- Comma scan for `prepWordsRE`: a comma, optional whitespace, then a
preparation-state word at a word boundary. -/
def prepScan : List Char → Bool
  | [] => false
  | c :: t =>
    (c == ',' &&
      (let r := t.dropWhile jsWS
       let words : List String :=
         ["finhackade", "finhackada", "finhackad", "hackade", "hackada", "hackad",
          "skivade", "skivada", "skivad", "tärnade", "tärnada", "tärnad",
          "delade", "delada", "delad", "diced", "chopped", "sliced", "minced",
          "grated", "julienned", "crushed", "sköljda", "avrunna"]
       (words.any fun w => wordAtHead r w.data) || iPiecesAtHead r)) ||
    prepScan t

/-- Model of `PREP_WORDS_RE` (`/i`). -/
def prepWordsRE (s : String) : Bool :=
  prepScan (toLowerS s).data

/-- Model of `FRACTION_START_RE`: the line starts with a digit, a fraction
glyph, a plain fraction or a decimal number (the first character decides). -/
def fractionStartRE (s : String) : Bool :=
  match s.data with
  | [] => false
  | c :: _ =>
    c.isDigit || c == '½' || c == '¼' || c == '¾' || c == '⅓' || c == '⅔' ||
      c == '⅛' || c == '⅜' || c == '⅝' || c == '⅞'

/-- Model of `INDEF_QTY_RE` (indefinite-quantity line starts, `/i`). -/
def indefQtyRE (s : String) : Bool :=
  let d := (toLowerS s).data
  "lite".data.isPrefixOf d ||
  (match d with
   | 'e' :: 'n' :: c :: _ => jsWS c
   | _ => false) ||
  (match d with
   | 'e' :: 't' :: 't' :: c :: _ => jsWS c
   | _ => false) ||
  "några".data.isPrefixOf d ||
  wordAtHead d "ev".data ||
  "eventuellt".data.isPrefixOf d ||
  seqWsTokens d ["a".data, "few".data] ||
  "some".data.isPrefixOf d ||
  seqWsTokens d ["a".data, "handful".data] ||
  seqWsTokens d ["a".data, "pinch".data] ||
  seqWsTokens d ["a".data, "dash".data]

/-- Model of `/^[a-zåäöüé]/`. -/
def lowercaseStartRE (s : String) : Bool :=
  match s.data with
  | [] => false
  | c :: _ => isAsciiLower c || c == 'å' || c == 'ä' || c == 'ö' || c == 'ü' || c == 'é'

/-- Model of the time-duration regex
`/\b\d+\s*(min(ut[ea]r|utes?)?|tim(m?ar|e)|hours?|seconds?|sekunder)\b/i`. -/
def durationRE (s : String) : Bool :=
  let units : List String :=
    ["min", "minuter", "minutar", "minute", "minutes", "timmar", "timar", "time",
     "hours", "hour", "seconds", "second", "sekunder"]
  scanBoundary
    (fun d =>
      match d with
      | c :: _ =>
        c.isDigit &&
          (let r := (d.dropWhile Char.isDigit).dropWhile jsWS
           units.any fun w => wordAtHead r w.data)
      | [] => false)
    (toLowerS s).data false

/-- Model of `/\d+\s*°/i`: a temperature mention. -/
def tempScan : List Char → Bool
  | [] => false
  | c :: t =>
    (c.isDigit &&
      (let r := ((c :: t).dropWhile Char.isDigit).dropWhile jsWS
       r.head? == some '°')) ||
    tempScan t

/-- String-level wrapper for `tempScan`. -/
def tempRE (s : String) : Bool := tempScan s.data

/-- Model of `/^[A-ZÅÄÖ][a-zåäöé]+\s/`: a capitalised word followed by
whitespace (the imperative-start heuristic). -/
def capImperativeRE (s : String) : Bool :=
  match s.data with
  | c :: t =>
    (isAsciiUpper c || c == 'Å' || c == 'Ä' || c == 'Ö') &&
      (let run := t.takeWhile fun x =>
         isAsciiLower x || x == 'å' || x == 'ä' || x == 'ö' || x == 'é'
       !run.isEmpty && (t.drop run.length).head?.any jsWS)
  | [] => false

/-- Model of `scoreIngredient` (src/app/actions.ts lines 829-842).  Scores are
exact fractions; every constant of the source (0.35, 0.25, …) is
representable exactly. -/
def scoreIngredient (line : String) : Frac :=
  let score :=
    (Frac.ofInt 0).add
      (if fractionStartRE line then ⟨35, 100⟩ else ⟨0, 1⟩) |>.add
      (if indefQtyRE line then ⟨25, 100⟩ else ⟨0, 1⟩) |>.add
      (if unitsRE line then ⟨25, 100⟩ else ⟨0, 1⟩) |>.add
      (if lenJS line < 60 then ⟨15, 100⟩ else ⟨0, 1⟩) |>.add
      (if prepWordsRE line then ⟨10, 100⟩ else ⟨0, 1⟩) |>.add
      (if bulletStartRE line then ⟨10, 100⟩ else ⟨0, 1⟩) |>.add
      (if lowercaseStartRE line && lenJS line < 50 then ⟨10, 100⟩ else ⟨0, 1⟩) |>.add
      (if cookingVerbsRE line then ⟨-30, 100⟩ else ⟨0, 1⟩) |>.add
      (if lenJS line > 120 then ⟨-40, 100⟩ else ⟨0, 1⟩)
  -- Math.max(0, Math.min(1, score))
  let m := if Frac.ble ⟨1, 1⟩ score then Frac.ofInt 1 else score
  if Frac.ble m (Frac.ofInt 0) then Frac.ofInt 0 else m

/-- Model of `scoreInstruction` (src/app/actions.ts lines 844-854). -/
def scoreInstruction (line : String) : Frac :=
  let score :=
    (Frac.ofInt 0).add
      (if cookingVerbsRE line then ⟨30, 100⟩ else ⟨0, 1⟩) |>.add
      (if lenJS line > 60 then ⟨20, 100⟩ else ⟨0, 1⟩) |>.add
      (if numStepRE line then ⟨20, 100⟩ else ⟨0, 1⟩) |>.add
      (if durationRE line then ⟨10, 100⟩ else ⟨0, 1⟩) |>.add
      (if tempRE line then ⟨10, 100⟩ else ⟨0, 1⟩) |>.add
      (if capImperativeRE line && lenJS line > 30 then ⟨10, 100⟩ else ⟨0, 1⟩)
  let m := if Frac.ble ⟨1, 1⟩ score then Frac.ofInt 1 else score
  if Frac.ble m (Frac.ofInt 0) then Frac.ofInt 0 else m

/-- Capital letters of the sentence-split lookahead class `[A-ZÅÄÖÜÉ]`. -/
def sentCap (c : Char) : Bool :=
  isAsciiUpper c || c == 'Å' || c == 'Ä' || c == 'Ö' || c == 'Ü' || c == 'É'

/-- Splitter for `splitIntoSentences`: split on whitespace runs preceded by
`!`/`?`, or preceded by `.` and followed by a capital letter.  The `skip`
flag records that the scan is inside a separator's whitespace run, `prev` is
the previous character of the input (for the look-behinds). -/
def splitSentGo : Bool → Option Char → List Char → List Char → List (List Char)
  | _, _, [], cur => [cur.reverse]
  | true, prev, c :: t, cur =>
    if jsWS c then splitSentGo true prev t cur
    else splitSentGo false (some c) t [c]
  | false, prev, c :: t, cur =>
    if jsWS c && (prev == some '!' || prev == some '?') then
      cur.reverse :: splitSentGo true none t []
    else if jsWS c && prev == some '.' && (t.dropWhile jsWS).head?.any sentCap then
      cur.reverse :: splitSentGo true none t []
    else splitSentGo false (some c) t (c :: cur)

/-- Model of `splitIntoSentences` (src/app/actions.ts): split, trim each
piece, keep pieces longer than five UTF-16 units. -/
def splitIntoSentences (text : String) : List String :=
  ((splitSentGo false none text.data []).map fun l => trimS ⟨l⟩).filter fun x => lenJS x > 5

/-- The decorative characters of `/^[✨⭐🌟\s*]+|[✨⭐🌟\s*]+$/g`. -/
def titleDecorChar (c : Char) : Bool :=
  c == '✨' || c == '⭐' || c == '🌟' || jsWS c || c == '*'

/-- Strip decorative runs from both ends of a title. -/
def stripDecor (s : String) : String :=
  ⟨((s.data.dropWhile titleDecorChar).reverse.dropWhile titleDecorChar).reverse⟩

/-- The decorated-or-all-caps test of the strategy-B title search:
`/[✨⭐🌟]/.test(l) || (l.length > 3 && l === l.toUpperCase())`. -/
def decoratedOrCaps (l : String) : Bool :=
  l.data.any (fun c => c == '✨' || c == '⭐' || c == '🌟') ||
    (lenJS l > 3 && toUpperS l == l)

/-! ## The `RecipeData` record (src/app/actions.ts) -/

/-- The canonical extraction output record. -/
structure RecipeData where
  title : String
  description : Option String
  ingredients : List String
  instructions : List String
  images : List String
  prepTime : Option String
  cookTime : Option String
  servings : Option String
  sourceUrl : String
deriving Repr, DecidableEq

/-- The `descriptionLines.join("\n") || undefined` idiom. -/
def joinLinesOpt (lines : List String) : Option String :=
  let j := String.intercalate "\n" lines
  if j.data.isEmpty then none else some j

/-- The `replace(decor).trim() || fallback` idiom for titles. -/
def decorTitle (t fallback : String) : String :=
  let e := trimS (stripDecor t)
  if e.data.isEmpty then fallback else e

/-! ## Strategy-B cluster selection (src/app/actions.ts lines 943-985)

The imperative loop keeps `bestClusterStart`, `bestClusterEnd` and
`clusterStart` with `-1` sentinels; the translation folds the same state over
the indexed line predicate. -/

/-- Loop state of the cluster search (`-1` sentinels as in the source). -/
structure ClusterSt where
  bestS : Int
  bestE : Int
  cur : Int
deriving Repr, DecidableEq

/-- One iteration of the cluster-search loop. -/
def clusterStep (st : ClusterSt) (ip : Nat × Bool) : ClusterSt :=
  if ip.2 then
    if st.cur < 0 then ⟨st.bestS, st.bestE, (ip.1 : Int)⟩ else st
  else if st.cur ≥ 0 && (ip.1 : Int) - st.cur > st.bestE - st.bestS then
    ⟨st.cur, (ip.1 : Int), -1⟩
  else ⟨st.bestS, st.bestE, -1⟩

/-- The whole loop over the indexed ingredient/instruction predicate. -/
def clusterScan (ps : List Bool) : ClusterSt :=
  ps.enum.foldl clusterStep ⟨-1, -1, -1⟩

/-- Model of the cluster selection (loop, final-cluster check, and the
discard of clusters shorter than two lines); `none` corresponds to the
`bestClusterStart = -1` state the rest of the code branches on. -/
def findBestCluster (ps : List Bool) : Option (Nat × Nat) :=
  let st := clusterScan ps
  let n : Int := ps.length
  let p : Int × Int :=
    if st.cur ≥ 0 && n - st.cur > st.bestE - st.bestS then (st.cur, n)
    else (st.bestS, st.bestE)
  if p.1 ≥ 0 && p.2 - p.1 ≥ 2 then some (p.1.toNat, p.2.toNat) else none

/-- The line predicate of the cluster search:
`scores[i].ing >= 0.3 && scores[i].ing > scores[i].ins`. -/
def clusterPred (ing ins : Frac) : Bool :=
  Frac.ble ⟨30, 100⟩ ing && Frac.blt ins ing

/-- Model of the forward cluster extension (lines 971-985): starting at the
naive end, include consecutive short lines with instruction score below 0.2
(a line with instruction score at least 0.4 or any other failure stops the
scan, exactly as the loop's `break`s do). -/
def extendCluster (scored : List (String × Frac × Frac)) (b : Nat) : Nat :=
  b + ((scored.drop b).takeWhile fun x =>
    lenJS x.1 < 60 && Frac.blt x.2.2 ⟨20, 100⟩).length

/-! ## Spec-side characterisation of the cluster selection (for claim C1) -/

/-- Maximal runs of consecutive `true` entries, as `[start, stop)` pairs in
order of appearance (follows the spec's words "longest run of consecutive
lines"). -/
def trueRuns : Nat → List Bool → List (Nat × Nat)
  | _, [] => []
  | i, false :: t => trueRuns (i + 1) t
  | i, true :: t =>
    let k := (t.takeWhile id).length
    (i, i + 1 + k) :: trueRuns (i + 1 + k) (t.drop k)
  termination_by _ l => l.length
  decreasing_by
    all_goals simp only [List.length_drop, List.length_cons]
    all_goals omega

/-- One comparison of the run-length maximum search: a later run replaces
the current best only when strictly longer. -/
def stepBest (acc : Option (Nat × Nat)) (r : Nat × Nat) : Option (Nat × Nat) :=
  match acc with
  | none => some r
  | some b => if r.2 - r.1 > b.2 - b.1 then some r else some b

/-- First run of maximal length ("ties in run length keep the first found"). -/
def firstLongestRun (rs : List (Nat × Nat)) : Option (Nat × Nat) :=
  rs.foldl stepBest none

/-- The closing steps of `findBestCluster` after the scan: fold in the still
open run against the end of the list, then discard sub-2-length results. -/
def answerOf (st : ClusterSt) (n : Int) : Option (Nat × Nat) :=
  let p : Int × Int :=
    if st.cur ≥ 0 && n - st.cur > st.bestE - st.bestS then (st.cur, n)
    else (st.bestS, st.bestE)
  if p.1 ≥ 0 && p.2 - p.1 ≥ 2 then some (p.1.toNat, p.2.toNat) else none

/-- The `-1`-sentinel states of the scan between runs, related to the best
run folded so far. -/
def relState (acc : Option (Nat × Nat)) (st : ClusterSt) : Prop :=
  st.cur = -1 ∧
    ((acc = none ∧ st.bestS = -1 ∧ st.bestE = -1) ∨
      ∃ s e : Nat, acc = some (s, e) ∧ s < e ∧ st.bestS = (s : Int) ∧ st.bestE = (e : Int))

/-- The final discard of sub-2-length runs, on the specification side. -/
def foldAnswer (o : Option (Nat × Nat)) : Option (Nat × Nat) :=
  match o with
  | some r => if 2 ≤ r.2 - r.1 then some r else none
  | none => none

/-- The specification's cluster: the first longest maximal run, discarded
when shorter than two lines. -/
def longestRunSpec (ps : List Bool) : Option (Nat × Nat) :=
  match firstLongestRun (trueRuns 0 ps) with
  | some r => if 2 ≤ r.2 - r.1 then some r else none
  | none => none

/-! ## The Instagram caption parser (src/app/actions.ts lines 876-1058) -/

/-- Header-based strategy (strategy 1 of `parseInstagramCaption`).  Expects
the indices returned by the two `findIndex` calls, at least one of which is
present. -/
def strategyA (lines : List String) (servings : Option String) (sourceUrl : String)
    (ingIdx insIdx : Option Nat) : RecipeData :=
  let headerStart :=
    match ingIdx, insIdx with
    | some a, some b => min a b
    | some a, none => a
    | none, some b => b
    | none, none => 0
  let title := if headerStart > 0 then lines.headD "" else "Instagram Recipe"
  let descriptionLines := ((lines.take headerStart).drop 1).filter fun l => !strHasPre l "#"
  let ingredients :=
    match ingIdx with
    | none => []
    | some ii =>
      let e := match insIdx with
        | some jj => if jj > ii then jj else lines.length
        | none => lines.length
      ((lines.take e).drop (ii + 1)).filterMap fun l =>
        let x := trimS (stripBullet l)
        if !x.data.isEmpty && !strHasPre x "#" then some x else none
  let instructions :=
    match insIdx with
    | none => []
    | some jj =>
      let e := match ingIdx with
        | some ii => if ii > jj then ii else lines.length
        | none => lines.length
      ((lines.take e).drop (jj + 1)).filterMap fun l =>
        let x := trimS (stripBullet (stripStepNum l))
        if x.data.isEmpty || strHasPre x "#" then none else some x
  ⟨decorTitle title title, joinLinesOpt descriptionLines, ingredients, instructions,
    [], none, none, servings, sourceUrl⟩

/-- The classification sweep of the no-cluster fallback of strategy B,
returning (description, ingredients, instructions) in order. -/
def fallbackClassify : List (String × Frac × Frac) → List String × List String × List String
  | [] => ([], [], [])
  | (l, _, ins) :: t =>
    let r := fallbackClassify t
    if strHasPre l "#" then r
    else if bulletStartRE l then (r.1, trimS (stripBullet l) :: r.2.1, r.2.2)
    else if numStepRE l then (r.1, r.2.1, trimS (stripNumStep l) :: r.2.2)
    else if Frac.blt ⟨30, 100⟩ ins && lenJS l > 60 then
      (r.1, r.2.1, splitIntoSentences l ++ r.2.2)
    else (l :: r.1, r.2.1, r.2.2)

/-- Score-based strategy (strategy 2 of `parseInstagramCaption`). -/
def strategyB (lines : List String) (servings : Option String) (sourceUrl : String) :
    RecipeData :=
  let scored := lines.map fun l => (l, scoreIngredient l, scoreInstruction l)
  let ps := scored.map fun x => clusterPred x.2.1 x.2.2
  let cluster := findBestCluster ps
  let titleIdx := ((lines.take 5).findIdx? decoratedOrCaps).getD 0
  let title := decorTitle ((lines.get? titleIdx).getD "Instagram Recipe") "Instagram Recipe"
  match cluster with
  | some (a, b0) =>
    let b := extendCluster scored b0
    let descriptionLines :=
      ((lines.take a).drop (titleIdx + 1)).filter fun l => !strHasPre l "#" && lenJS l > 2
    let ingredients :=
      ((lines.take b).drop a).filterMap fun l =>
        let x := trimS (stripBullet l)
        if x.data.isEmpty then none else some x
    let instructions :=
      (lines.drop b).flatMap fun l =>
        if strHasPre l "#" then []
        else if lenJS l > 100 then splitIntoSentences l
        else
          let c := trimS (stripStepNum l)
          if c.data.isEmpty then [] else [c]
    ⟨title, joinLinesOpt descriptionLines, ingredients, instructions, [], none, none,
      servings, sourceUrl⟩
  | none =>
    let r := fallbackClassify (scored.drop (titleIdx + 1))
    ⟨title, joinLinesOpt r.1, r.2.1, r.2.2, [], none, none, servings, sourceUrl⟩

/-- Model of `parseInstagramCaption` (src/app/actions.ts lines 876-1058). -/
def parseInstagramCaption (caption sourceUrl : String) : RecipeData :=
  let lines0 := stripUsername (cleanInstagramCaption caption)
  let sv := extractServings lines0
  let lines := sv.2
  let ingIdx := List.findIdx? ingHeaderRE lines
  let insIdx := List.findIdx? insHeaderRE lines
  if ingIdx.isSome || insIdx.isSome then strategyA lines sv.1 sourceUrl ingIdx insIdx
  else strategyB lines sv.1 sourceUrl

/-- The fully preprocessed line list of `parseInstagramCaption` (after
cleaning, username stripping and servings removal). -/
def processedLines (caption : String) : List String :=
  (extractServings (stripUsername (cleanInstagramCaption caption))).2

/-! ## The ingredient scaler (src/unnamed/part_000, `RecipeCard`)

`parseLeadingNumber`, `formatScaledNumber` and `scaleIngredient` translated
over exact fractions.  The numeric tokens recognised are ASCII, so UTF-16
match lengths coincide with character counts. -/

/-- The mixed-number attempt `^(\d+)\s+(\d+)\/(\d+)` of `parseLeadingNumber`
(`d` is the whole string, `d1` its leading digit run). -/
def parseMixedNumber (d : List Char) (d1 : List Char) : Option (Frac × Nat) :=
  let r1 := d.drop d1.length
  let ws := r1.takeWhile jsWS
  if ws.isEmpty then none
  else
    let r2 := r1.drop ws.length
    let d2 := r2.takeWhile Char.isDigit
    if d2.isEmpty then none
    else
      match r2.drop d2.length with
      | '/' :: r3 =>
        let d3 := r3.takeWhile Char.isDigit
        if d3.isEmpty then none
        else
          some (⟨(digitsToNat d1 : Int) * (digitsToNat d3 : Int) + (digitsToNat d2 : Int),
                  (digitsToNat d3 : Int)⟩,
                d1.length + ws.length + d2.length + 1 + d3.length)
      | _ => none

/-- Model of `parseLeadingNumber`: a mixed number `1 1/2` (via
`parseMixedNumber`, the `^(\d+)\s+(\d+)\/(\d+)` attempt), a fraction `1/2`,
or a decimal/integer at the start of the string; returns the value and the
number of characters consumed. -/
def parseLeadingNumber (s : String) : Option (Frac × Nat) :=
  let d := s.data
  let d1 := d.takeWhile Char.isDigit
  if d1.isEmpty then none
  else
    match parseMixedNumber d d1 with
    | some v => some v
    | none =>
      match d.drop d1.length with
      | '/' :: r2 =>
        -- fraction: ^(\d+)\/(\d+); on failure the decimal pattern matches the
        -- bare integer part
        let d2 := r2.takeWhile Char.isDigit
        if d2.isEmpty then some (⟨(digitsToNat d1 : Int), 1⟩, d1.length)
        else some (⟨(digitsToNat d1 : Int), (digitsToNat d2 : Int)⟩, d1.length + 1 + d2.length)
      | '.' :: r2 =>
        -- decimal: ^(\d+(?:\.\d+)?)
        let d2 := r2.takeWhile Char.isDigit
        if d2.isEmpty then some (⟨(digitsToNat d1 : Int), 1⟩, d1.length)
        else
          some (⟨(digitsToNat d1 : Int) * (10 ^ d2.length : Nat) + (digitsToNat d2 : Int),
                  ((10 ^ d2.length : Nat) : Int)⟩,
                d1.length + 1 + d2.length)
      | _ => some (⟨(digitsToNat d1 : Int), 1⟩, d1.length)

/-- JavaScript `toFixed(1)` on a non-negative fraction: round to the nearest
tenth, ties up, rendered as `"w.d"`. -/
def toFixed1Abs (x : Frac) : String :=
  let n := (Int.fdiv (20 * x.num + x.den) (2 * x.den)).toNat
  toString (n / 10) ++ "." ++ toString (n % 10)

/-- JavaScript `toFixed(1)`: sign handled first, then the absolute value is
rounded. -/
def toFixed1 (x : Frac) : String :=
  if Frac.blt x ⟨0, 1⟩ then "-" ++ toFixed1Abs ⟨-x.num, x.den⟩ else toFixed1Abs x

/-- The `.replace(/\.0$/, "")` strip. -/
def stripDotZero (s : String) : String :=
  if "0.".data.isPrefixOf s.data.reverse then ⟨(s.data.reverse.drop 2).reverse⟩ else s

/-- The fixed culinary fraction table of `formatScaledNumber`, in source
order. -/
def fractionGlyphs : List (Frac × String) :=
  [(⟨1, 8⟩, "⅛"), (⟨1, 4⟩, "¼"), (⟨1, 3⟩, "⅓"), (⟨3, 8⟩, "⅜"), (⟨1, 2⟩, "½"),
   (⟨5, 8⟩, "⅝"), (⟨2, 3⟩, "⅔"), (⟨3, 4⟩, "¾"), (⟨7, 8⟩, "⅞")]

/-- First glyph of the table within the 0.06 tolerance band of `decimal`
(the source iterates the table in order and returns on the first hit). -/
def firstGlyph (decimal : Frac) : List (Frac × String) → Option String
  | [] => none
  | (f, sym) :: t =>
    if Frac.blt (Frac.abs (Frac.sub decimal f)) ⟨6, 100⟩ then some sym
    else firstGlyph decimal t

/-- Model of `formatScaledNumber` (src/unnamed/part_000 lines 288-302). -/
def formatScaledNumber (value : Frac) : String :=
  let whole := Frac.floor value
  let decimal := Frac.sub value ⟨whole, 1⟩
  if Frac.blt decimal ⟨5, 100⟩ then (if whole == 0 then "0" else toString whole)
  else
    match firstGlyph decimal fractionGlyphs with
    | some sym => if whole > 0 then toString whole ++ sym else sym
    | none => stripDotZero (toFixed1 value)

/-- Model of `scaleIngredient` (src/unnamed/part_000 lines 304-310).  The
`factor === 1` short-circuit compares number values, so any fraction whose
numerator equals its (positive) denominator is the factor 1. -/
def scaleIngredient (ingredient : String) (factor : Frac) : String :=
  if factor.num == factor.den then ingredient
  else
    match parseLeadingNumber ingredient with
    | none => ingredient
    | some (v, e) => formatScaledNumber (Frac.mul v factor) ++ ⟨ingredient.data.drop e⟩

/-! ## JSON values and the JSON-LD recipe extractor (src/app/actions.ts)

A parsed JSON value; numbers are modelled as integers (the recipe fields the
code reads are strings and arrays, so non-integral numbers only matter for
the `String(recipeYield[0])` coercion, where integer rendering suffices). -/

/-- Parsed JSON values. -/
inductive Json where
  | null : Json
  | bool : Bool → Json
  | num : Int → Json
  | str : String → Json
  | arr : List Json → Json
  | obj : List (String × Json) → Json
deriving Repr

/-- Property read on a parsed object.  `JSON.parse` keeps the last of
duplicate keys, hence the right-biased search. -/
def getField : List (String × Json) → String → Option Json
  | [], _ => none
  | (k, v) :: t, key =>
    match getField t key with
    | some r => some r
    | none => if k == key then some v else none

/-- JavaScript truthiness of a parsed JSON value. -/
def jsTruthy : Json → Bool
  | .null => false
  | .bool b => b
  | .num n => n != 0
  | .str s => !s.data.isEmpty
  | _ => true

mutual

/-- JavaScript `String(·)` on a parsed JSON value (arrays join their
elements' strings with commas, objects print `[object Object]`). -/
def jsToString : Json → String
  | .null => "null"
  | .bool b => if b then "true" else "false"
  | .num n => toString n
  | .str s => s
  | .arr xs => String.intercalate "," (jsToStringItems xs)
  | .obj _ => "[object Object]"

/-- Stringification of array elements (`null` prints empty inside arrays). -/
def jsToStringItems : List Json → List String
  | [] => []
  | .null :: t => "" :: jsToStringItems t
  | x :: t => jsToString x :: jsToStringItems t

end

/-- Model of `parseIso8601Duration` (src/app/actions.ts lines 180-189): find
the first `PT`, read optional hour and minute groups, and render
`"{h} hr {m} min"`; when nothing remains the original string is returned. -/
def findPT : List Char → Option (List Char)
  | [] => none
  | 'P' :: 'T' :: t => some t
  | _ :: t => findPT t

/-- Digits directly followed by the given letter; returns the value and the
rest. -/
def numThen (d : List Char) (letter : Char) : Option (Nat × List Char) :=
  let ds := d.takeWhile Char.isDigit
  if ds.isEmpty then none
  else
    match d.drop ds.length with
    | c :: r => if c == letter then some (digitsToNat ds, r) else none
    | [] => none

/-- ISO-8601 duration to display string. -/
def parseIso8601Duration (duration : String) : String :=
  match findPT duration.data with
  | none => duration
  | some r =>
    let h := numThen r 'H'
    let r1 := match h with | some (_, rr) => rr | none => r
    let m := numThen r1 'M'
    let hours := match h with | some (n, _) => n | none => 0
    let minutes := match m with | some (n, _) => n | none => 0
    let parts :=
      (if hours > 0 then [toString hours ++ " hr"] else []) ++
      (if minutes > 0 then [toString minutes ++ " min"] else [])
    if parts.isEmpty then duration else String.intercalate " " parts

/-- Reading a property of a parsed object yields a structurally smaller
value (for the termination of the recursive instruction normalisation). -/
theorem getField_sizeOf_lt (f : List (String × Json)) (key : String) (v : Json)
    (h : getField f key = some v) : sizeOf v < sizeOf f := by
  induction f with
  | nil => simp [getField] at h
  | cons a t ih =>
    obtain ⟨k, w⟩ := a
    simp only [getField] at h
    cases hg : getField t key with
    | some r =>
      rw [hg] at h
      cases h
      have := ih hg
      simp only [List.cons.sizeOf_spec]
      omega
    | none =>
      rw [hg] at h
      by_cases hk : (k == key) = true
      · simp only [hk, if_true] at h
        cases h
        simp only [List.cons.sizeOf_spec, Prod.mk.sizeOf_spec]
        omega
      · simp [hk] at h

mutual

/-- Model of `normalizeInstructions`' element mapping: a string is trimmed,
an object yields its `text` or `name` string field trimmed, or its
`itemListElement` array recursively normalised and joined with spaces;
anything else produces the empty string (filtered out by the caller). -/
def instrItem : Json → String
  | .str s => trimS s
  | .obj f =>
    match getField f "text" with
    | some (.str t) => trimS t
    | _ =>
      match getField f "name" with
      | some (.str t) => trimS t
      | _ =>
        match hf : getField f "itemListElement" with
        | some (.arr ys) =>
          String.intercalate " " ((instrItems ys).filter fun x => !x.data.isEmpty)
        | _ => ""
  | _ => ""
  termination_by j => sizeOf j
  decreasing_by
    have := getField_sizeOf_lt f "itemListElement" (.arr ys) hf
    simp only [Json.arr.sizeOf_spec, Json.obj.sizeOf_spec] at this ⊢
    omega

/-- Element-wise mapping over an instruction array. -/
def instrItems : List Json → List String
  | [] => []
  | x :: t => instrItem x :: instrItems t
  termination_by l => sizeOf l
  decreasing_by
    all_goals simp only [List.cons.sizeOf_spec]
    all_goals omega

end

/-- Model of `normalizeInstructions` (src/app/actions.ts lines 191-209).
`none` models an absent field; note the plain-string branch keeps the raw
string unless it is empty (it is *not* trimmed). -/
def normalizeInstructions (raw : Option Json) : List String :=
  match raw with
  | none => []
  | some j =>
    if !jsTruthy j then []
    else
      match j with
      | .str s => if s.data.isEmpty then [] else [s]
      | .arr xs => (instrItems xs).filter fun x => !x.data.isEmpty
      | _ => []

/-- Element mapping of `normalizeImages`. -/
def imageItem : Json → List String
  | .str s => [s]
  | .obj f =>
    match getField f "url" with
    | some (.str u) => [u]
    | _ => []
  | _ => []

/-- Model of `normalizeImages` (src/app/actions.ts lines 211-229). -/
def normalizeImages (raw : Option Json) : List String :=
  match raw with
  | none => []
  | some j =>
    if !jsTruthy j then []
    else
      match j with
      | .str s => [s]
      | .arr xs => xs.flatMap imageItem
      | .obj f =>
        match getField f "url" with
        | some (.str u) => [u]
        | _ => []
      | _ => []

/-- The `@type` test: `type === "Recipe" || (Array.isArray(type) &&
type.includes("Recipe"))`. -/
def isRecipeType (f : List (String × Json)) : Bool :=
  match getField f "@type" with
  | some (.str s) => s == "Recipe"
  | some (.arr xs) =>
    xs.any fun x =>
      match x with
      | .str s => s == "Recipe"
      | _ => false
  | _ => false

/-- The non-empty-name test that a candidate must additionally pass. -/
def hasNonemptyName (f : List (String × Json)) : Bool :=
  match getField f "name" with
  | some (.str s) => !(trimS s).data.isEmpty
  | _ => false

/-- The field mapping applied to the winning candidate (body of the loop in
`extractRecipeFromJsonLd`); `sourceUrl` is left empty and backfilled by the
orchestrator. -/
def mapCandidate (f : List (String × Json)) : RecipeData :=
  let title := match getField f "name" with | some (.str s) => trimS s | _ => ""
  let description :=
    match getField f "description" with
    | some (.str s) => some (trimS s)
    | _ => none
  let ingredients :=
    match getField f "recipeIngredient" with
    | some (.arr xs) =>
      ((xs.filterMap fun x => match x with | .str s => some s | _ => none).map trimS).filter
        fun x => !x.data.isEmpty
    | _ => []
  let instructions := normalizeInstructions (getField f "recipeInstructions")
  let images := normalizeImages (getField f "image")
  let prepTime :=
    match getField f "prepTime" with
    | some (.str s) => some (parseIso8601Duration s)
    | _ => none
  let cookTime :=
    match getField f "cookTime" with
    | some (.str s) => some (parseIso8601Duration s)
    | _ => none
  let servings :=
    match getField f "recipeYield" with
    | some (.str s) => some s
    | some (.arr xs) =>
      some (match xs with | [] => "undefined" | y :: _ => jsToString y)
    | _ => none
  ⟨title, description, ingredients, instructions, images, prepTime, cookTime, servings, ""⟩

/-- Candidate flattening of one parsed block.  A top-level array yields its
elements; an object with a truthy `@graph` yields that array (a truthy
non-iterable `@graph` makes the `for…of` throw, aborting the block, which
`none` records; a string `@graph` iterates its characters); `null` throws on
the `@graph` property access; any other value is its own single candidate. -/
def candidatesOf : Json → Option (List Json)
  | .arr xs => some xs
  | .obj f =>
    match getField f "@graph" with
    | some g =>
      if jsTruthy g then
        match g with
        | .arr ys => some ys
        | .str s => some (s.data.map fun c => Json.str ⟨[c]⟩)
        | _ => none
      else some [.obj f]
    | none => some [.obj f]
  | .null => none
  | j => some [j]

/-- The candidate loop: the first object candidate typed `Recipe` with a
non-empty trimmed `name` is mapped and returned. -/
def scanCandidates : List Json → Option RecipeData
  | [] => none
  | .obj f :: t =>
    if isRecipeType f && hasNonemptyName f then some (mapCandidate f) else scanCandidates t
  | _ :: t => scanCandidates t

/-- Model of `extractRecipeFromJsonLd` (src/app/actions.ts lines 231-304).
Each entry of `blocks` is one `ld+json` script block: `none` when its
content is missing or fails to `JSON.parse`, `some` the parsed value
otherwise. -/
def extractRecipeFromJsonLd : List (Option Json) → Option RecipeData
  | [] => none
  | none :: rest => extractRecipeFromJsonLd rest
  | some j :: rest =>
    match candidatesOf j with
    | none => extractRecipeFromJsonLd rest
    | some cs =>
      match scanCandidates cs with
      | some r => some r
      | none => extractRecipeFromJsonLd rest

/-! ### Spec-side characterisation of the scan (for claim C4) -/

/-- Spec-side flattening: the candidate list contributed by one block
(malformed blocks contribute nothing). -/
def specBlockCandidates (b : Option Json) : List Json :=
  match b with
  | none => []
  | some j => (candidatesOf j).getD []

/-- Spec-side qualification: an object typed `Recipe` with non-empty trimmed
name. -/
def specQualifies : Json → Option RecipeData
  | .obj f => if isRecipeType f && hasNonemptyName f then some (mapCandidate f) else none
  | _ => none

/-- Specification of the extractor: the mapping of the first qualifying
candidate across all blocks in document order. -/
def specFirstRecipe (blocks : List (Option Json)) : Option RecipeData :=
  ((blocks.flatMap specBlockCandidates).filterMap specQualifies).head?

/-! ## URL parsing model (the platform `new URL` constructor)

The code relies on the WHATWG URL constructor only for the protocol and the
hostname, and for its throwing behaviour on unparsable input.  This model
accepts `scheme://[userinfo@]host[:port][/…]` shapes, lower-cases scheme and
host, and returns `none` (the catch branch) otherwise. -/

/-- Scheme characters after the leading letter. -/
def isSchemeChar (c : Char) : Bool :=
  isAsciiAlpha c || c.isDigit || c == '+' || c == '-' || c == '.'

/-- Protocol (with the trailing colon, as `URL.protocol` reports it) and
hostname of a URL string, or `none` when the constructor would throw. -/
def parseURLParts (s : String) : Option (String × String) :=
  let d := s.data
  match d with
  | [] => none
  | c :: _ =>
    if !isAsciiAlpha c then none
    else
      let sch := d.takeWhile isSchemeChar
      match d.drop sch.length with
      | ':' :: '/' :: '/' :: rest =>
        let auth := rest.takeWhile fun x => x != '/' && x != '?' && x != '#'
        let hostPort := (auth.reverse.takeWhile (· != '@')).reverse
        let host := hostPort.takeWhile (· != ':')
        if host.isEmpty then none
        else some (⟨sch.map lowerChar⟩ ++ ":", ⟨host.map lowerChar⟩)
      | _ => none

/-- Model of `isValidUrl` (src/app/actions.ts lines 9-16): the URL parses and
its protocol is http or https. -/
def isValidUrl (url : String) : Bool :=
  match parseURLParts url with
  | some (p, _) => p == "http:" || p == "https:"
  | none => false

/-- Model of `isInstagramUrl` (src/lib/instagram.ts lines 20-27): the URL
parses and its hostname is exactly `instagram.com` or ends with
`.instagram.com`; unparsable input yields `false` through the catch. -/
def isInstagramUrl (url : String) : Bool :=
  match parseURLParts url with
  | some (_, h) => h == "instagram.com" || ".instagram.com".data.isSuffixOf h.data
  | none => false

/-- Hostname of a URL, for the heuristic title fallback (`new URL(url)`
cannot throw there because the orchestrator validated the URL). -/
def urlHostname (url : String) : String :=
  match parseURLParts url with
  | some (_, h) => h
  | none => ""

/-! ## Heuristic DOM extractor (src/app/actions.ts lines 306-353)

The DOM queries are abstracted into a page record: the meta/heading reads
the extractor performs, and the text of the list items found under the
ingredient- and instruction-classed containers, in DOM order. -/

/-- Abstraction of the parsed document. -/
structure PageModel where
  ldBlocks : List (Option Json)
  ogTitle : Option String
  h1Text : String
  ogDescription : Option String
  metaDescription : Option String
  ogImage : Option String
  ingredientItemTexts : List String
  instructionItemTexts : List String

/-- JavaScript `a || b` on optional strings (empty strings are falsy). -/
def orTruthy (a b : Option String) : Option String :=
  match a with
  | some s => if s.data.isEmpty then b else some s
  | none => b

/-- Model of `extractRecipeHeuristic`. -/
def extractRecipeHeuristic (page : PageModel) (url : String) : RecipeData :=
  let title :=
    match orTruthy page.ogTitle (some (trimS page.h1Text)) with
    | some t => if t.data.isEmpty then urlHostname url else t
    | none => urlHostname url
  let description := orTruthy page.ogDescription page.metaDescription
  let images :=
    match page.ogImage with
    | some i => if i.data.isEmpty then [] else [i]
    | none => []
  let ingredients :=
    page.ingredientItemTexts.filterMap fun t =>
      let x := trimS t
      if x.data.isEmpty then none else some x
  let instructions :=
    page.instructionItemTexts.filterMap fun t =>
      let x := trimS t
      if x.data.isEmpty then none else some x
  ⟨title, description, ingredients, instructions, images, none, none, none, url⟩

/-! ## Extraction orchestrator (src/app/actions.ts lines 1067-1195) -/

/-- The byte cap: `MAX_BODY_SIZE = 2 * 1024 * 1024`. -/
def MAX_BODY_SIZE : Nat := 2 * 1024 * 1024

/-- Body streaming loop: accumulate chunks with a running byte counter and
abort with the typed error as soon as the counter exceeds the cap; on
success the decoded concatenation is returned. -/
def streamBodyGo : List (List Nat) → Nat → List (List Nat) → Except String (List Nat)
  | [], _, acc => .ok acc.reverse.flatten
  | v :: rest, total, acc =>
    let t := total + v.length
    if t > MAX_BODY_SIZE then .error "Page content is too large."
    else streamBodyGo rest t (v :: acc)

/-- Entry point of the streaming loop. -/
def streamBody (chunks : List (List Nat)) : Except String (List Nat) :=
  streamBodyGo chunks 0 []

/-- Outcome of the Instagram caption acquisition call (the
`/api/instagram` collaborator). -/
inductive InstaFetch where
  | fetchError (msg : String)
  | fetched (caption : String) (imageUrl : Option String)

/-- The HTTP response of the single fetch, as far as the orchestrator
inspects it (`statusMsg` stands for `${status} ${statusText}`; `body` is
`none` when no reader is available). -/
structure HttpResponse where
  ok : Bool
  statusMsg : String
  contentType : String
  body : Option (List (List Nat))

/-- The `ParseResult` union (persistence id omitted: saving is an external
collaborator). -/
inductive ParseOutcome where
  | success (recipe : RecipeData)
  | failure (error : String)
deriving Repr, DecidableEq

/-- Model of `parseUrlFromFormData` (src/app/actions.ts lines 1067-1195).
`urlInput` is the form value (`none` for a non-string entry); the fetch
outcome, the parsed page and the Instagram collaborator response are
parameters, since the network and the DOM are external.  The document is
only parsed after the body stream succeeds, so `page` is unused on the
failure paths. -/
def parseUrlGivenUrl (url : String) (insta : InstaFetch)
    (resp : HttpResponse) (page : PageModel) : ParseOutcome :=
  if url.data.isEmpty then .failure "Please enter a URL."
  else if !isValidUrl url then
    .failure "Invalid URL. Only http and https URLs are allowed."
  else if isInstagramUrl url then
    match insta with
    | .fetchError m => .failure m
    | .fetched caption img =>
      let r := parseInstagramCaption caption url
      .success { r with images := r.images ++ (match img with | some u => [u] | none => []) }
  else if !resp.ok then .failure ("Could not fetch URL: " ++ resp.statusMsg)
  else if !containsStr resp.contentType "text/html" &&
      !containsStr resp.contentType "text/plain" then
    .failure "URL does not appear to be an HTML page."
  else
    match resp.body with
    | none => .failure "Could not read response body."
    | some chunks =>
      match streamBody chunks with
      | .error e => .failure e
      | .ok _ =>
        match extractRecipeFromJsonLd page.ldBlocks with
        | some r => .success { r with sourceUrl := url }
        | none => .success (extractRecipeHeuristic page url)

/-- Entry: the form value is read as a string (or empty) and trimmed; the
trimmed value is the `url` every later step uses. -/
def parseUrlFromFormData (urlInput : Option String) (insta : InstaFetch)
    (resp : HttpResponse) (page : PageModel) : ParseOutcome :=
  parseUrlGivenUrl (trimS (urlInput.getD "")) insta resp page

/-! ## Spec-side definitions for the individual claims -/

/-- The claim's pre-header title-candidate test (claim C2): no `@` mention,
not a hashtag line, not junk, no `!` or `?`. -/
def titleCandidateOK (l : String) : Bool :=
  !containsStr l "@" && !strHasPre l "#" && !junkRE l &&
    !containsStr l "!" && !containsStr l "?"

/-- First string of minimal UTF-16 length (a later candidate wins only when
strictly shorter). -/
def shortestOf : List String → Option String
  | [] => none
  | x :: t =>
    match shortestOf t with
    | none => some x
    | some b => if lenJS b < lenJS x then some b else some x

/-- Title selection as claim C2 states it: the shortest qualifying candidate
of the pre-header block, line 0 when no candidate qualifies. -/
def specTitleChoice (preHeader : List String) : String :=
  match shortestOf (preHeader.filter titleCandidateOK) with
  | some c => c
  | none => preHeader.headD ""

/-- Servings extraction as the code actually behaves (amended claim C3): the
first line that entirely consists of a servings mention is the servings
value and is removed; every other line is kept. -/
def specServingsExtract (lines : List String) : Option String × List String :=
  match List.findIdx? servingsRE lines with
  | none => (none, lines)
  | some i => (lines.get? i, lines.eraseIdx i)

/-- Distance of a fraction table entry from the remainder. -/
def glyphDist (decimal : Frac) (f : Frac) : Frac := Frac.abs (Frac.sub decimal f)

/-- Nearest glyph of the fraction table (earlier entries win ties), per the
wording of claim C6. -/
def nearestGlyph (decimal : Frac) : Option (Frac × String) :=
  fractionGlyphs.foldl
    (fun acc e =>
      match acc with
      | none => some e
      | some b => if Frac.blt (glyphDist decimal e.1) (glyphDist decimal b.1) then some e else some b)
    none

/-- Number rendering as claim C6 words it: the whole part followed by the
nearest glyph whenever that glyph lies within 0.06 of the fractional
remainder, otherwise one decimal place with a trailing `.0` stripped. -/
def specRenderNearest (value : Frac) : String :=
  let whole := Frac.floor value
  let decimal := Frac.sub value ⟨whole, 1⟩
  match nearestGlyph decimal with
  | some (f, sym) =>
    if Frac.blt (glyphDist decimal f) ⟨6, 100⟩ then
      (if whole > 0 then toString whole ++ sym else sym)
    else stripDotZero (toFixed1 value)
  | none => stripDotZero (toFixed1 value)

/-- Number rendering as the amended claim C6 words it: the *first* glyph of
the fixed table (in its ascending order) within 0.06 of the fractional
remainder, otherwise one decimal place with a trailing `.0` stripped. -/
def amendedRender (value : Frac) : String :=
  let whole := Frac.floor value
  let decimal := Frac.sub value ⟨whole, 1⟩
  match firstGlyph decimal fractionGlyphs with
  | some sym => if whole > 0 then toString whole ++ sym else sym
  | none => stripDotZero (toFixed1 value)

/-! # Theorems -/

/-! ## C7: scaling by exactly 1 is the identity -/

/-- C7.  For every ingredient string, scaling with factor exactly 1 (any
fraction of value 1) returns the string unchanged, byte for byte: the
source short-circuits before parsing anything. -/
theorem scaleIngredient_one_identity (s : String) (factor : Frac)
    (h : factor.val = 1) : scaleIngredient s factor = s := by
  have hnum : (factor.num == factor.den) = true := by
    by_cases hd : (factor.den : ℚ) = 0
    · rw [Frac.val, hd, div_zero] at h
      exact absurd h (by norm_num)
    · rw [Frac.val, div_eq_one_iff_eq hd] at h
      simp only [beq_iff_eq]
      exact_mod_cast h
  unfold scaleIngredient
  rw [hnum]
  rfl

/-- Witness for C7 at a concrete ingredient and the literal factor 1. -/
theorem scaleIngredient_one_identity_witness :
    scaleIngredient "1 1/2 cups flour" ⟨1, 1⟩ = "1 1/2 cups flour" :=
  scaleIngredient_one_identity "1 1/2 cups flour" ⟨1, 1⟩ (by simp [Frac.val])

/-! ## C10: the Instagram URL test -/

/-- C10.  `isInstagramUrl` returns `true` exactly when the URL parses and its
hostname is `instagram.com` or ends with `.instagram.com`; an unparsable
string yields `false` rather than an exception, and a hostname that merely
contains `instagram.com` as a substring (such as `notinstagram.com`) is
rejected. -/
theorem isInstagramUrl_spec :
    (∀ url : String,
      isInstagramUrl url = true ↔
        ∃ p h, parseURLParts url = some (p, h) ∧
          (h = "instagram.com" ∨ ".instagram.com".data.isSuffixOf h.data = true)) ∧
    isInstagramUrl "https://notinstagram.com/p/abc" = false ∧
    containsStr "notinstagram.com" "instagram.com" = true ∧
    isInstagramUrl "not a url" = false ∧
    isInstagramUrl "https://www.instagram.com/p/abc/" = true ∧
    isInstagramUrl "https://instagram.com/p/abc" = true := by
  refine ⟨?_, by decide, by decide, by decide, by decide, by decide⟩
  intro url
  unfold isInstagramUrl
  cases hp : parseURLParts url with
  | none => simp
  | some pr =>
    obtain ⟨p, h⟩ := pr
    simp only [Bool.or_eq_true, beq_iff_eq, Option.some.injEq]
    constructor
    · intro hb
      exact ⟨p, h, rfl, hb⟩
    · rintro ⟨p', h', he, hcase⟩
      cases he
      exact hcase

/-! ## C9: the byte cap aborts with a typed failure -/

/-- The streaming loop fails with the typed message as soon as the running
byte counter exceeds the cap. -/
theorem streamBodyGo_err (chunks : List (List Nat)) :
    ∀ total acc, total ≤ MAX_BODY_SIZE →
      MAX_BODY_SIZE < total + (chunks.map List.length).sum →
      streamBodyGo chunks total acc = .error "Page content is too large." := by
  induction chunks with
  | nil =>
    intro total acc h1 h2
    simp only [List.map_nil, List.sum_nil] at h2
    omega
  | cons v rest ih =>
    intro total acc h1 h2
    simp only [List.map_cons, List.sum_cons] at h2
    show (if total + v.length > MAX_BODY_SIZE then
        Except.error "Page content is too large."
      else streamBodyGo rest (total + v.length) (v :: acc)) = _
    by_cases hc : total + v.length > MAX_BODY_SIZE
    · rw [if_pos hc]
    · rw [if_neg hc]
      exact ih _ _ (by omega) (by omega)

/-- A whole-body version of the stream-cap failure. -/
theorem streamBody_err (chunks : List (List Nat))
    (h : MAX_BODY_SIZE < (chunks.map List.length).sum) :
    streamBody chunks = .error "Page content is too large." :=
  streamBodyGo_err chunks 0 [] (by omega) (by omega)

/-- C9.  On the fetch branch, whenever the streamed body exceeds the 2 MiB
cap, the orchestrator returns the typed failure "Page content is too
large." — it never returns the partial accumulated content as a success. -/
theorem sizeCap_failure (urlInput : Option String) (insta : InstaFetch)
    (resp : HttpResponse) (page : PageModel) (chunks : List (List Nat))
    (hbody : resp.body = some chunks)
    (hbig : MAX_BODY_SIZE < (chunks.map List.length).sum)
    (hne : (trimS (urlInput.getD "")).data ≠ [])
    (hval : isValidUrl (trimS (urlInput.getD "")) = true)
    (hig : isInstagramUrl (trimS (urlInput.getD "")) = false)
    (hok : resp.ok = true)
    (hct : containsStr resp.contentType "text/html" = true ∨
      containsStr resp.contentType "text/plain" = true) :
    parseUrlFromFormData urlInput insta resp page =
      .failure "Page content is too large." := by
  have h1 : (trimS (urlInput.getD "")).data.isEmpty = false := by
    cases hx : (trimS (urlInput.getD "")).data
    · exact absurd hx hne
    · rfl
  have hct2 : (!containsStr resp.contentType "text/html" &&
      !containsStr resp.contentType "text/plain") = false := by
    rcases hct with hc | hc <;> simp [hc]
  unfold parseUrlFromFormData parseUrlGivenUrl
  simp only [h1, hval, hig, hok, hct2, hbody, streamBody_err chunks hbig,
    Bool.not_true, Bool.not_false, Bool.false_eq_true, if_false, if_true,
    Bool.false_and, ite_false, ite_true]

/-! ## C4: the JSON-LD scan is first-match with malformed-block tolerance -/

/-- The candidate loop equals "map the first qualifying candidate". -/
theorem scanCandidates_eq (cs : List Json) :
    scanCandidates cs = (cs.filterMap specQualifies).head? := by
  induction cs with
  | nil => rfl
  | cons c t ih =>
    cases c with
    | obj f =>
      show (if isRecipeType f && hasNonemptyName f then some (mapCandidate f)
        else scanCandidates t) = _
      by_cases hq : (isRecipeType f && hasNonemptyName f) = true
      · rw [if_pos hq]
        simp [List.filterMap_cons, specQualifies, hq]
      · rw [if_neg hq]
        simp only [List.filterMap_cons, specQualifies, if_neg hq]
        exact ih
    | null => exact ih
    | bool b => exact ih
    | num n => exact ih
    | str s => exact ih
    | arr xs => exact ih

/-- A demo `Recipe` block for the malformed-then-valid instance. -/
def demoRecipeBlock : Json :=
  Json.obj
    [("@type", .str "Recipe"), ("name", .str " Tomato Soup "),
     ("recipeIngredient", .arr [.str " 2 tomatoes ", .str "1 dl cream", .num 7]),
     ("recipeInstructions", .str "Simmer everything together."),
     ("image", .str "https://img.example/x.jpg"),
     ("prepTime", .str "PT1H30M"),
     ("recipeYield", .str "4 servings")]

/-- C4.  The JSON-LD extractor scans blocks in document order, skips
malformed blocks (`none`) without aborting, flattens single-object, array
and `@graph` shapes into candidates, and returns the mapping of the first
candidate typed `Recipe` with a non-empty trimmed name; in particular a
malformed block followed by a valid `Recipe` block still extracts the valid
one (shown on a concrete document). -/
theorem extractRecipeFromJsonLd_spec :
    (∀ blocks : List (Option Json),
      extractRecipeFromJsonLd blocks = specFirstRecipe blocks) ∧
    extractRecipeFromJsonLd [none, some demoRecipeBlock] =
      some ⟨"Tomato Soup", none, ["2 tomatoes", "1 dl cream"],
        ["Simmer everything together."], ["https://img.example/x.jpg"],
        some "1 hr 30 min", none, some "4 servings", ""⟩ := by
  refine ⟨?_, by decide⟩
  intro blocks
  induction blocks with
  | nil => rfl
  | cons b rest ih =>
    cases b with
    | none =>
      show extractRecipeFromJsonLd rest = _
      rw [ih]
      simp [specFirstRecipe, specBlockCandidates]
    | some j =>
      show (match candidatesOf j with
        | none => extractRecipeFromJsonLd rest
        | some cs =>
          match scanCandidates cs with
          | some r => some r
          | none => extractRecipeFromJsonLd rest) = _
      cases hc : candidatesOf j with
      | none =>
        rw [ih]
        simp [specFirstRecipe, specBlockCandidates, hc]
      | some cs =>
        show (match scanCandidates cs with
          | some r => some r
          | none => extractRecipeFromJsonLd rest) = _
        rw [scanCandidates_eq]
        cases hh : (cs.filterMap specQualifies).head? with
        | some r =>
          simp only [specFirstRecipe, List.flatMap_cons, specBlockCandidates, hc,
            Option.getD_some, List.filterMap_append]
          cases hcs : cs.filterMap specQualifies with
          | nil => rw [hcs] at hh; exact absurd hh (by simp)
          | cons x xs =>
            rw [hcs] at hh
            simp at hh
            subst hh
            rfl
        | none =>
          rw [ih]
          have hnil : cs.filterMap specQualifies = [] := by
            cases hcs : cs.filterMap specQualifies with
            | nil => rfl
            | cons x xs => rw [hcs] at hh; exact absurd hh (by simp)
          simp [specFirstRecipe, List.flatMap_cons, specBlockCandidates, hc,
            List.filterMap_append, hnil]

/-! ## C3: servings are only extracted from whole-line mentions -/

/-- Once a servings line has been found, the scan keeps every further line. -/
theorem extractServingsGo_some (lines : List String) (s : String) :
    extractServingsGo lines (some s) = (some s, lines) := by
  induction lines with
  | nil => rfl
  | cons l t ih =>
    show (if (some s).isNone && servingsRE l then _ else _) = _
    simp [ih]

/-- C3 counterexample.  A parenthesized servings mention embedded in the
title line is neither extracted as `servings` (which stays `none`) nor
stripped from the displayed title — contradicting the claim, which demands
`servings = "6 portioner"` and a cleaned title. -/
theorem servings_embedded_counterexample :
    containsStr "My soup (6 portioner)" "(6 portioner)" = true ∧
    (parseInstagramCaption "My soup (6 portioner)\nIngredients\n1 dl cream\nsalt"
      "u").servings = none ∧
    (parseInstagramCaption "My soup (6 portioner)\nIngredients\n1 dl cream\nsalt"
      "u").title = "My soup (6 portioner)" := by
  refine ⟨by decide, by decide, by decide⟩

/-- C3 (amended).  Servings extraction is whole-line only: the first line
that entirely consists of a servings mention (optional trailing period
included) becomes the servings value, that line alone is removed, and every
other line — in particular one with an embedded parenthesized mention — is
kept unchanged. -/
theorem extractServings_spec (lines : List String) :
    extractServings lines = specServingsExtract lines := by
  unfold extractServings specServingsExtract
  induction lines with
  | nil => rfl
  | cons l t ih =>
    show (if Option.isNone none && servingsRE l then _ else _) = _
    by_cases hm : servingsRE l = true
    · rw [List.findIdx?_cons, if_pos hm]
      simp only [Option.isNone_none, Bool.true_and, hm, if_true, ite_true,
        extractServingsGo_some]
      rfl
    · rw [List.findIdx?_cons, if_neg hm]
      simp only [Option.isNone_none, Bool.true_and, hm, Bool.false_eq_true,
        if_false, ite_false]
      rw [ih]
      cases hf : List.findIdx? servingsRE t with
      | none => simp [hf]
      | some i => simp [hf, List.getElem?_cons_succ, List.eraseIdx_cons_succ]

/-! ## C2: the header-strategy title is line 0, not the shortest candidate -/

/-- The earliest header index of a caption's processed lines (`headerStart`
of strategy A), when any header is found. -/
def captionHeaderStart (caption : String) : Option Nat :=
  let lines := processedLines caption
  match List.findIdx? ingHeaderRE lines, List.findIdx? insHeaderRE lines with
  | some a, some b => some (min a b)
  | some a, none => some a
  | none, some b => some b
  | none, none => none

/-- C2 counterexample.  In a caption whose pre-header block holds a long
hook line followed by the short candidate "Pasta" (which has no `@`, `#`,
`!`, `?` and is not junk), the parser's title is the long line 0, not the
shortest candidate the claim promises. -/
theorem title_shortest_counterexample :
    (parseInstagramCaption
      "This is my absolutely amazing pasta recipe you must try\nPasta\nIngredients\n1 cup flour\n2 eggs"
      "u").title = "This is my absolutely amazing pasta recipe you must try" ∧
    captionHeaderStart
      "This is my absolutely amazing pasta recipe you must try\nPasta\nIngredients\n1 cup flour\n2 eggs"
      = some 2 ∧
    specTitleChoice (List.take 2 (processedLines
      "This is my absolutely amazing pasta recipe you must try\nPasta\nIngredients\n1 cup flour\n2 eggs"))
      = "Pasta" ∧
    "This is my absolutely amazing pasta recipe you must try" ≠ "Pasta" := by
  refine ⟨by decide, by decide, by decide, by decide⟩

/-- C2 (amended).  When a section header is found at a positive index, the
returned title is simply line 0 of the preprocessed caption with decorative
characters stripped from its ends (falling back to the raw line when
stripping empties it); no shortest-candidate search over the pre-header
block is performed. -/
theorem headerTitle_is_line0 (caption url : String) (k : Nat)
    (h : captionHeaderStart caption = some k) (hk : 0 < k) :
    (parseInstagramCaption caption url).title =
      decorTitle ((processedLines caption).headD "")
        ((processedLines caption).headD "") := by
  unfold captionHeaderStart processedLines at h
  unfold parseInstagramCaption processedLines
  dsimp only at h ⊢
  cases hi : List.findIdx? ingHeaderRE
      (extractServings (stripUsername (cleanInstagramCaption caption))).2 with
  | none =>
    cases hj : List.findIdx? insHeaderRE
        (extractServings (stripUsername (cleanInstagramCaption caption))).2 with
    | none => rw [hi, hj] at h; exact absurd h (by simp)
    | some b =>
      rw [hi, hj] at h
      simp only [Option.some.injEq] at h
      subst h
      simp only [Option.isSome_none, Option.isSome_some, Bool.false_or, if_true, ite_true]
      unfold strategyA
      dsimp only
      rw [if_pos hk]
  | some a =>
    cases hj : List.findIdx? insHeaderRE
        (extractServings (stripUsername (cleanInstagramCaption caption))).2 with
    | none =>
      rw [hi, hj] at h
      simp only [Option.some.injEq] at h
      subst h
      simp only [Option.isSome_some, Bool.true_or, if_true, ite_true]
      unfold strategyA
      dsimp only
      rw [if_pos hk]
    | some b =>
      rw [hi, hj] at h
      simp only [Option.some.injEq] at h
      subst h
      simp only [Option.isSome_some, Bool.true_or, if_true, ite_true]
      unfold strategyA
      dsimp only
      rw [if_pos hk]

/-- Witness for the amended C2 at the counterexample caption. -/
theorem headerTitle_is_line0_witness :
    (parseInstagramCaption
      "This is my absolutely amazing pasta recipe you must try\nPasta\nIngredients\n1 cup flour\n2 eggs"
      "u").title =
      decorTitle ((processedLines
        "This is my absolutely amazing pasta recipe you must try\nPasta\nIngredients\n1 cup flour\n2 eggs").headD "")
        ((processedLines
          "This is my absolutely amazing pasta recipe you must try\nPasta\nIngredients\n1 cup flour\n2 eggs").headD "") :=
  headerTitle_is_line0
    "This is my absolutely amazing pasta recipe you must try\nPasta\nIngredients\n1 cup flour\n2 eggs"
    "u" 2 (by decide) (by decide)

/-! ## C6: the fraction renderer is first-in-table, not nearest -/

/-- C6 counterexample.  Scaling "3 cups" by 0.1 gives the value 0.3, whose
nearest table glyph is ⅓ (distance 1/30) — but the code returns ¼, the
first glyph of the table within the 0.06 band (distance 1/20). -/
theorem nearest_glyph_counterexample :
    scaleIngredient "3 cups" ⟨1, 10⟩ = "¼ cups" ∧
    specRenderNearest (Frac.mul ⟨3, 1⟩ ⟨1, 10⟩) ++ (⟨" cups".data⟩ : String) = "⅓ cups" ∧
    parseLeadingNumber "3 cups" = some (⟨3, 1⟩, 1) ∧
    ("¼ cups" : String) ≠ "⅓ cups" := by
  refine ⟨by decide, by decide, by decide, by decide⟩

/-- Nonnegative `toString` on integers agrees with the natural-number
rendering. -/
theorem int_toString_nonneg (w : Int) (h : 0 ≤ w) : toString w = toString w.toNat := by
  cases w with
  | ofNat m => rfl
  | negSucc m => exact absurd h (by simp)

/-- The `.0`-strip undoes appending `".0"`. -/
theorem stripDotZero_append (s : String) : stripDotZero (s ++ "." ++ "0") = s := by
  unfold stripDotZero
  have hd : (s ++ "." ++ "0").data = s.data ++ ['.', '0'] := by
    simp [String.data_append]
  rw [hd]
  have hrev : (s.data ++ ['.', '0']).reverse = '0' :: '.' :: s.data.reverse := by simp
  rw [hrev]
  rw [if_pos (by simp [List.isPrefixOf])]
  apply String.ext
  simp

/-- The glyph search returns `none` exactly when no table entry is within
tolerance. -/
theorem firstGlyph_eq_none (d : Frac) (gs : List (Frac × String)) :
    (∀ p ∈ gs, Frac.blt (Frac.abs (Frac.sub d p.1)) ⟨6, 100⟩ = false) →
    firstGlyph d gs = none := by
  intro h
  induction gs with
  | nil => rfl
  | cons p t ih =>
    show (if Frac.blt (Frac.abs (Frac.sub d p.1)) ⟨6, 100⟩ then _ else _) = _
    rw [h p (by simp)]
    exact ih fun q hq => h q (by simp [hq])

/-- Below the 0.05 snap there is no table glyph within the 0.06 band. -/
theorem firstGlyph_none_of_small (dn dd : Int) (hdd : 0 < dd) (h0 : 0 ≤ dn)
    (hsmall : dn * 100 < 5 * dd) :
    firstGlyph ⟨dn, dd⟩ fractionGlyphs = none := by
  apply firstGlyph_eq_none
  intro p hp
  fin_cases hp <;>
    (simp only [Frac.blt, Frac.abs, Frac.sub, decide_eq_false_iff_not, not_lt]
     split_ifs <;> (simp_all; omega))

/-- JavaScript `toFixed(1)` of a value whose fractional part is below 0.05
renders the whole part followed by `.0`. -/
theorem toFixed1Abs_snap (num den w r : Int) (hd : 0 < den) (hnum : num = den * w + r)
    (hr0 : 0 ≤ r) (hsnap : r * 100 < 5 * den) (hw : 0 ≤ w) :
    toFixed1Abs ⟨num, den⟩ = toString w.toNat ++ "." ++ "0" := by
  unfold toFixed1Abs
  have hfd : Int.fdiv (20 * num + den) (2 * den) = (20 * num + den) / (2 * den) :=
    Int.fdiv_eq_ediv _ (by omega)
  have hsplit : 20 * num + den = (20 * r + den) + 10 * w * (2 * den) := by
    rw [hnum]; ring
  have hdiv : (20 * num + den) / (2 * den) = 10 * w := by
    rw [hsplit, Int.add_mul_ediv_right _ _ (by omega : (2 * den) ≠ 0),
      Int.ediv_eq_zero_of_lt (by omega) (by omega)]
    omega
  rw [hfd, hdiv]
  have h10 : (10 * w).toNat = 10 * w.toNat := by omega
  rw [h10]
  dsimp only
  have hq : 10 * w.toNat / 10 = w.toNat := by omega
  have hm : 10 * w.toNat % 10 = 0 := by omega
  rw [hq, hm]
  rfl

/-- The source renderer agrees with the first-in-table rendering on
nonnegative values: the sub-0.05 snap of the source coincides with the
rounded one-decimal rendering (with `.0` stripped), and no glyph is within
tolerance there. -/
theorem formatScaledNumber_eq_amended (x : Frac) (hd : 0 < x.den) (hn : 0 ≤ x.num) :
    formatScaledNumber x = amendedRender x := by
  obtain ⟨num, den⟩ := x
  dsimp only at hd hn
  unfold formatScaledNumber amendedRender
  dsimp only
  have hfd : Frac.floor ⟨num, den⟩ = num / den := by
    show Int.fdiv num den = num / den
    exact Int.fdiv_eq_ediv num (by omega)
  rw [hfd]
  split
  case isFalse => rfl
  case isTrue hlt =>
    have hA : den * (num / den) + num % den = num := Int.ediv_add_emod num den
    have hB : 0 ≤ num % den := Int.emod_nonneg num (by omega)
    have hwnn : 0 ≤ num / den := Int.ediv_nonneg hn (by omega)
    have hr : num - num / den * den = num % den := by linear_combination -hA
    simp only [Frac.sub, Frac.blt, mul_one, one_mul, decide_eq_true_eq] at hlt
    have hsnap : (num % den) * 100 < 5 * den := by omega
    have hglyph :
        firstGlyph (Frac.sub ⟨num, den⟩ ⟨num / den, 1⟩) fractionGlyphs = none := by
      have h1 : Frac.sub ⟨num, den⟩ ⟨num / den, 1⟩ =
          (⟨num - num / den * den, den⟩ : Frac) := by
        show (⟨num * 1 - num / den * den, den * 1⟩ : Frac) = _
        rw [mul_one, mul_one]
      rw [h1]
      exact firstGlyph_none_of_small _ _ hd (by omega) (by omega)
    rw [hglyph]
    show _ = stripDotZero (toFixed1 ⟨num, den⟩)
    unfold toFixed1
    have hneg : ¬(Frac.blt ⟨num, den⟩ (⟨0, 1⟩ : Frac) = true) := by
      simp only [Frac.blt, mul_one, zero_mul, decide_eq_true_eq]
      omega
    rw [if_neg hneg]
    rw [toFixed1Abs_snap num den (num / den) (num % den) hd (by omega) hB hsnap hwnn]
    rw [stripDotZero_append]
    by_cases hw0 : num / den = 0
    · rw [if_pos (by simp [hw0])]
      rw [hw0]
      rfl
    · rw [if_neg (by simp [hw0])]
      exact int_toString_nonneg _ hwnn

/-- The mixed-number attempt yields nonnegative numerators (digit runs). -/
theorem parseMixedNumber_num_nonneg (d d1 : List Char) (v : Frac) (e : Nat)
    (hp : parseMixedNumber d d1 = some (v, e)) : 0 ≤ v.num := by
  unfold parseMixedNumber at hp
  dsimp only at hp
  repeat' split at hp
  all_goals cases hp
  dsimp only
  positivity

/-- Leading numeric tokens always carry a nonnegative numerator (they are
built from digit runs). -/
theorem parseLeadingNumber_num_nonneg (s : String) (v : Frac) (e : Nat)
    (hp : parseLeadingNumber s = some (v, e)) : 0 ≤ v.num := by
  unfold parseLeadingNumber at hp
  dsimp only at hp
  repeat' split at hp
  all_goals cases hp
  all_goals first
    | positivity
    | (dsimp only; positivity)
    | (rename_i hm; exact parseMixedNumber_num_nonneg _ _ _ _ hm)

/-- C6 (amended).  For every ingredient string with a leading numeric token
(of nonzero denominator) and every nonnegative scale factor other than 1,
the scaler multiplies the parsed value by the factor and renders the
product as its whole part followed by the *first* glyph of the fixed table
⅛,¼,⅓,⅜,½,⅝,⅔,¾,⅞ — in that order — whose value lies within 0.06 of the
fractional remainder, and otherwise as one decimal place with a trailing
`.0` stripped; the remainder of the original string is appended
unchanged. -/
theorem scaleIngredient_firstGlyph (s : String) (factor v : Frac) (e : Nat)
    (hfd : 0 < factor.den) (hfn : 0 ≤ factor.num)
    (hne : factor.num ≠ factor.den)
    (hp : parseLeadingNumber s = some (v, e)) (hvd : 0 < v.den) :
    scaleIngredient s factor =
      amendedRender (Frac.mul v factor) ++ (⟨s.data.drop e⟩ : String) := by
  unfold scaleIngredient
  rw [if_neg (by simp [hne]), hp]
  show formatScaledNumber (Frac.mul v factor) ++ _ = _
  rw [formatScaledNumber_eq_amended (Frac.mul v factor)
    (by show 0 < v.den * factor.den; exact mul_pos hvd hfd)
    (by show 0 ≤ v.num * factor.num
        exact mul_nonneg (parseLeadingNumber_num_nonneg s v e hp) hfn)]

/-- Witness for the amended C6: "2 cups" scaled by 1.5. -/
theorem scaleIngredient_firstGlyph_witness :
    scaleIngredient "2 cups" ⟨3, 2⟩ =
      amendedRender (Frac.mul ⟨2, 1⟩ ⟨3, 2⟩) ++ (⟨"2 cups".data.drop 1⟩ : String) :=
  scaleIngredient_firstGlyph "2 cups" ⟨3, 2⟩ ⟨2, 1⟩ 1 (by decide) (by decide)
    (by decide) (by decide) (by decide)

/-! ## C5: emptiness-after-trim of the result arrays

The caption and heuristic paths guard every pushed element, but the
JSON-LD path's `normalizeInstructions` keeps a non-empty string-typed
`recipeInstructions` verbatim, so a whitespace-only string survives as an
instruction that is empty after trimming. -/

/-- Dropping a prefix by a predicate is idempotent. -/
theorem dropWhile_idem (p : Char → Bool) (l : List Char) :
    (l.dropWhile p).dropWhile p = l.dropWhile p := by
  induction l with
  | nil => rfl
  | cons a t ih =>
    by_cases h : p a = true
    · simp [List.dropWhile_cons, h, ih]
    · simp [List.dropWhile_cons, h]

/-- The right trim keeps a prefix of the list. -/
theorem trimRightL_prefix (l : List Char) : trimRightL l <+: l := by
  have h : l.reverse.dropWhile jsWS <:+ l.reverse := List.dropWhile_suffix _
  simpa [trimRightL] using List.reverse_prefix.mpr h

/-- A left-trimmed list stays left-trimmed after right trimming. -/
theorem trimLeftL_of_trimRightL (l : List Char) (h : trimLeftL l = l) :
    trimLeftL (trimRightL l) = trimRightL l := by
  cases hv : trimRightL l with
  | nil => rfl
  | cons d w =>
    have hpre : trimRightL l <+: l := trimRightL_prefix l
    rw [hv] at hpre
    obtain ⟨r, hr⟩ := hpre
    subst hr
    have hdws : jsWS d = false := by
      by_cases hb : jsWS d = true
      · exfalso
        unfold trimLeftL at h
        rw [List.cons_append, List.dropWhile_cons, if_pos hb] at h
        have hle : (List.dropWhile jsWS (w ++ r)).length ≤ (w ++ r).length :=
          (List.dropWhile_sublist jsWS).length_le
        rw [h] at hle
        simp at hle
      · exact Bool.eq_false_iff.mpr hb
    unfold trimLeftL
    rw [List.dropWhile_cons, if_neg (by simp [hdws])]

/-- Right trimming is idempotent. -/
theorem trimRightL_idem (l : List Char) : trimRightL (trimRightL l) = trimRightL l := by
  unfold trimRightL
  rw [List.reverse_reverse, dropWhile_idem]

/-- JavaScript `trim` is idempotent. -/
theorem trimS_idem (s : String) : trimS (trimS s) = trimS s := by
  show (⟨trimRightL (trimLeftL (trimRightL (trimLeftL s.data)))⟩ : String) = _
  rw [trimLeftL_of_trimRightL _
      (show trimLeftL (trimLeftL s.data) = trimLeftL s.data from dropWhile_idem jsWS s.data),
    trimRightL_idem]
  rfl

/-- A trim-produced non-empty string stays non-empty under a second trim. -/
theorem trimS_trim_ne (y : String) (h : (trimS y).data.isEmpty = false) :
    trimS (trimS y) ≠ "" := by
  rw [trimS_idem]
  intro he
  rw [he] at h
  exact absurd h (by decide)

/-- A string with characters is not the empty string. -/
theorem ne_empty_of_isEmpty (x : String) (h : x.data.isEmpty = false) : x ≠ "" := by
  intro he
  rw [he] at h
  exact absurd h (by decide)

/-- Whitespace of the dropped prefix propagates to the whole list. -/
theorem forall_ws_of_dropWhile (l : List Char)
    (h : ∀ c ∈ l.dropWhile jsWS, jsWS c = true) : ∀ c ∈ l, jsWS c = true := by
  intro c hc
  rw [← List.takeWhile_append_dropWhile jsWS l] at hc
  rcases List.mem_append.mp hc with h1 | h2
  · exact List.mem_takeWhile_imp h1
  · exact h c h2

/-- Trimming yields the empty string exactly on all-whitespace inputs. -/
theorem trimS_eq_empty_iff (s : String) :
    trimS s = "" ↔ ∀ c ∈ s.data, jsWS c = true := by
  constructor
  · intro h
    have hd : trimRightL (trimLeftL s.data) = [] := by
      have h2 := congrArg String.data h
      simpa using h2
    apply forall_ws_of_dropWhile
    intro c hc
    unfold trimRightL at hd
    rw [List.reverse_eq_nil_iff] at hd
    exact List.dropWhile_eq_nil_iff.mp hd c (List.mem_reverse.mpr hc)
  · intro h
    have h1 : trimLeftL s.data = [] := List.dropWhile_eq_nil_iff.mpr fun x hx => h x hx
    show (⟨trimRightL (trimLeftL s.data)⟩ : String) = ""
    rw [h1]
    decide

/-- Dropping by a predicate skips over a block that satisfies it. -/
theorem dropWhile_append_all (p : Char → Bool) (l₁ l₂ : List Char)
    (h : ∀ x ∈ l₁, p x = true) : (l₁ ++ l₂).dropWhile p = l₂.dropWhile p := by
  induction l₁ with
  | nil => rfl
  | cons a t ih =>
    rw [List.cons_append, List.dropWhile_cons, if_pos (h a (by simp))]
    exact ih fun x hx => h x (by simp [hx])

/-- `takeWhile` is the take of its own length. -/
theorem take_length_takeWhile {α : Type} (p : α → Bool) (l : List α) :
    l.take (l.takeWhile p).length = l.takeWhile p := by
  induction l with
  | nil => rfl
  | cons a t ih =>
    rw [List.takeWhile_cons]
    by_cases h : p a = true
    · rw [if_pos h]
      simp [List.take_succ_cons, ih]
    · rw [if_neg h]
      rfl

/-- A whitespace character's code point, read off the class definition. -/
theorem jsWS_imp_toNat (c : Char) (h : jsWS c = true) :
    c.toNat = 32 ∨ c.toNat = 9 ∨ c.toNat = 10 ∨ c.toNat = 13 ∨ c.toNat = 0x0b ∨
    c.toNat = 0x0c ∨ c.toNat = 0xa0 ∨ c.toNat = 0x1680 ∨
    (0x2000 ≤ c.toNat ∧ c.toNat ≤ 0x200a) ∨ c.toNat = 0x2028 ∨ c.toNat = 0x2029 ∨
    c.toNat = 0x202f ∨ c.toNat = 0x205f ∨ c.toNat = 0x3000 ∨ c.toNat = 0xfeff := by
  unfold jsWS at h
  simp only [Bool.or_eq_true, beq_iff_eq, Bool.and_eq_true, decide_eq_true_eq] at h
  rcases h with ((((((((((((((h | h) | h) | h) | h) | h) | h) | h) | h) | h) | h) | h) |
    h) | h) | h)
  all_goals try subst h
  all_goals first | decide | omega

/-- Bullet characters are not whitespace. -/
theorem jsWS_false_of_bullet (c : Char) (h : isBulletChar c = true) : jsWS c = false := by
  unfold isBulletChar at h
  simp only [Bool.or_eq_true, beq_iff_eq] at h
  have hn : c.toNat = 45 ∨ c.toNat = 0x2022 ∨ c.toNat = 0xB7 ∨ c.toNat = 0x25E6 ∨
      c.toNat = 0x25AA ∨ c.toNat = 0x2043 ∨ c.toNat = 42 := by
    rcases h with ((((((h | h) | h) | h) | h) | h) | h)
    all_goals subst h
    all_goals decide
  cases hws : jsWS c
  · rfl
  · have := jsWS_imp_toNat c hws
    omega

/-- Digits are not whitespace. -/
theorem jsWS_false_of_digit (c : Char) (h : c.isDigit = true) : jsWS c = false := by
  have hb : 48 ≤ c.toNat ∧ c.toNat ≤ 57 := by
    simp only [Char.isDigit, Bool.and_eq_true, decide_eq_true_eq] at h
    exact ⟨h.1, h.2⟩
  cases hws : jsWS c
  · rfl
  · have := jsWS_imp_toNat c hws
    omega

/-- The step punctuation `.`/`)` is not whitespace. -/
theorem jsWS_false_of_step (c : Char) (h : (c == '.' || c == ')') = true) :
    jsWS c = false := by
  simp only [Bool.or_eq_true, beq_iff_eq] at h
  rcases h with h | h
  all_goals subst h
  all_goals decide

/-- Sentence pieces survive a trim: they are trimmed and longer than five
UTF-16 units. -/
theorem splitSent_trim (t x : String) (hx : x ∈ splitIntoSentences t) :
    trimS x ≠ "" := by
  unfold splitIntoSentences at hx
  rw [List.mem_filter] at hx
  obtain ⟨hm, hlen⟩ := hx
  rw [List.mem_map] at hm
  obtain ⟨l, _, hl⟩ := hm
  have hxx : trimS x = x := by rw [← hl, trimS_idem]
  rw [hxx]
  intro he
  rw [he] at hlen
  exact absurd hlen (by decide)

/-- Stripping the bullet of a trimmed bullet line leaves visible content. -/
theorem stripBullet_trim_ne (l : String) (hinv : trimS l = l)
    (hb : bulletStartRE l = true) : trimS (stripBullet l) ≠ "" := by
  unfold bulletStartRE at hb
  split at hb
  case h_2 => cases hb
  case h_1 c w rest heq =>
  rw [Bool.and_eq_true] at hb
  obtain ⟨hc, hw⟩ := hb
  have hsb : stripBullet l = ⟨(w :: rest).dropWhile jsWS⟩ := by
    unfold stripBullet
    rw [heq]
    show (if isBulletChar c then (⟨(w :: rest).dropWhile jsWS⟩ : String) else l) = _
    rw [if_pos hc]
  intro hcontra
  rw [hsb] at hcontra
  have hall : ∀ x ∈ w :: rest, jsWS x = true :=
    forall_ws_of_dropWhile _ fun x hx => (trimS_eq_empty_iff _).mp hcontra x hx
  have hcfalse : jsWS c = false := jsWS_false_of_bullet c hc
  have htl : trimLeftL l.data = l.data := by
    rw [heq]
    unfold trimLeftL
    rw [List.dropWhile_cons, if_neg (by simp [hcfalse])]
  have htr : trimRightL l.data = [c] := by
    rw [heq]
    unfold trimRightL
    rw [show (c :: w :: rest).reverse = (w :: rest).reverse ++ [c] from by simp]
    rw [dropWhile_append_all _ _ _ fun x hx => hall x (List.mem_reverse.mp hx)]
    rw [show ([c] : List Char).dropWhile jsWS = [c] from by
      rw [List.dropWhile_cons, if_neg (by simp [hcfalse])]]
    rfl
  have hTeq : trimS l = ⟨[c]⟩ := by
    show (⟨trimRightL (trimLeftL l.data)⟩ : String) = _
    rw [htl, htr]
  rw [hinv] at hTeq
  have hdata : c :: w :: rest = [c] := by
    rw [← heq]
    exact congrArg String.data hTeq
  simp at hdata

/-- Stripping the step number of a trimmed numbered line leaves visible
content. -/
theorem stripNumStep_trim_ne (l : String) (hinv : trimS l = l)
    (hn : numStepRE l = true) : trimS (stripNumStep l) ≠ "" := by
  unfold numStepRE at hn
  dsimp only at hn
  rw [Bool.and_eq_true] at hn
  obtain ⟨hds, hrest⟩ := hn
  split at hrest
  case h_2 => cases hrest
  case h_1 c w t' heq2 =>
  rw [Bool.and_eq_true] at hrest
  obtain ⟨hc, hw⟩ := hrest
  have hds' : (l.data.takeWhile Char.isDigit).isEmpty = false := by simpa using hds
  have hsb : stripNumStep l = ⟨(w :: t').dropWhile jsWS⟩ := by
    unfold stripNumStep
    dsimp only
    rw [if_neg (by simp [hds']), heq2]
    show (if c == '.' || c == ')' then (⟨(w :: t').dropWhile jsWS⟩ : String) else l) = _
    rw [if_pos hc]
  intro hcontra
  rw [hsb] at hcontra
  have hall : ∀ x ∈ w :: t', jsWS x = true :=
    forall_ws_of_dropWhile _ fun x hx => (trimS_eq_empty_iff _).mp hcontra x hx
  have hsplit : l.data = l.data.takeWhile Char.isDigit ++ (c :: w :: t') := by
    conv_lhs => rw [← List.take_append_drop (l.data.takeWhile Char.isDigit).length l.data]
    rw [take_length_takeWhile, heq2]
  have hcws : jsWS c = false := jsWS_false_of_step c hc
  cases hdse : l.data.takeWhile Char.isDigit with
  | nil =>
    rw [hdse] at hds'
    exact absurd hds' (by decide)
  | cons e ds' =>
    have hedig : e.isDigit = true :=
      List.mem_takeWhile_imp (by rw [hdse]; exact List.mem_cons_self e ds')
    have hews : jsWS e = false := jsWS_false_of_digit e hedig
    have htl : trimLeftL l.data = l.data := by
      conv_lhs => rw [hsplit, hdse]
      unfold trimLeftL
      rw [List.cons_append, List.dropWhile_cons, if_neg (by simp [hews])]
      rw [← List.cons_append, ← hdse, ← hsplit]
    have htr : trimRightL l.data = l.data.takeWhile Char.isDigit ++ [c] := by
      conv_lhs => rw [hsplit]
      unfold trimRightL
      rw [List.reverse_append]
      rw [show (c :: w :: t').reverse = (w :: t').reverse ++ [c] from by simp]
      rw [List.append_assoc]
      rw [dropWhile_append_all _ _ _ fun x hx => hall x (List.mem_reverse.mp hx)]
      rw [show ([c] ++ (l.data.takeWhile Char.isDigit).reverse).dropWhile jsWS
            = c :: (l.data.takeWhile Char.isDigit).reverse from by
        rw [List.singleton_append, List.dropWhile_cons, if_neg (by simp [hcws])]]
      simp
    have hTeq : trimS l = ⟨l.data.takeWhile Char.isDigit ++ [c]⟩ := by
      show (⟨trimRightL (trimLeftL l.data)⟩ : String) = _
      rw [htl, htr]
    rw [hinv] at hTeq
    have hdata : l.data.takeWhile Char.isDigit ++ (c :: w :: t')
        = l.data.takeWhile Char.isDigit ++ [c] := by
      rw [← hsplit]
      exact congrArg String.data hTeq
    have := List.append_cancel_left hdata
    simp at this

/-- Lines surviving the caption cleaning are trimmed and non-empty. -/
theorem mem_clean (raw l : String) (h : l ∈ cleanInstagramCaption raw) :
    trimS l = l ∧ l.data.isEmpty = false := by
  unfold cleanInstagramCaption at h
  rw [List.mem_filter] at h
  obtain ⟨h, _⟩ := h
  rw [List.mem_filter] at h
  obtain ⟨h, _⟩ := h
  rw [List.mem_filter] at h
  obtain ⟨h, _⟩ := h
  rw [List.mem_filter] at h
  obtain ⟨hm, hne⟩ := h
  rw [List.mem_map] at hm
  obtain ⟨y, _, hy⟩ := hm
  constructor
  · rw [← hy, trimS_idem]
  · simpa using hne

/-- The username strip keeps a sub-collection of the lines. -/
theorem mem_stripUsername (ls : List String) (l : String)
    (h : l ∈ stripUsername ls) : l ∈ ls := by
  unfold stripUsername at h
  split at h
  · split at h
    · exact List.mem_cons_of_mem _ h
    · exact h
  · exact h

/-- The servings scan keeps a sub-collection of the lines. -/
theorem mem_extractServingsGo (ls : List String) (acc : Option String) (l : String)
    (h : l ∈ (extractServingsGo ls acc).2) : l ∈ ls := by
  induction ls generalizing acc with
  | nil => simp [extractServingsGo] at h
  | cons a t ih =>
    unfold extractServingsGo at h
    split at h
    · exact List.mem_cons_of_mem _ (ih _ h)
    · dsimp only at h
      rcases List.mem_cons.mp h with h1 | h2
      · rw [h1]
        exact List.mem_cons_self a t
      · exact List.mem_cons_of_mem _ (ih _ h2)

/-- Every fully preprocessed caption line is trimmed and non-empty. -/
theorem processedLines_inv (caption : String) :
    ∀ l ∈ processedLines caption, trimS l = l ∧ l.data.isEmpty = false := by
  intro l hl
  unfold processedLines extractServings at hl
  exact mem_clean _ _ (mem_stripUsername _ _ (mem_extractServingsGo _ _ _ hl))

/-- The fallback classification pushes only trim-surviving ingredients and
instructions, given trimmed non-empty input lines. -/
theorem fallbackClassify_trim (sc : List (String × Frac × Frac))
    (hs : ∀ p ∈ sc, trimS p.1 = p.1 ∧ p.1.data.isEmpty = false) :
    (∀ x ∈ (fallbackClassify sc).2.1, trimS x ≠ "") ∧
    (∀ x ∈ (fallbackClassify sc).2.2, trimS x ≠ "") := by
  induction sc with
  | nil =>
    constructor
    · intro x hx
      simp [fallbackClassify] at hx
    · intro x hx
      simp [fallbackClassify] at hx
  | cons p t ih =>
    obtain ⟨l, si, ins⟩ := p
    have iht := ih fun q hq => hs q (by simp [hq])
    have hpl := hs (l, si, ins) (by simp)
    unfold fallbackClassify
    dsimp only
    split
    · exact iht
    · split
      · rename_i hbul
        constructor
        · intro x hx
          rcases List.mem_cons.mp hx with h | h
          · rw [h, trimS_idem]
            exact stripBullet_trim_ne l hpl.1 hbul
          · exact iht.1 x h
        · exact fun x hx => iht.2 x hx
      · split
        · rename_i hnum
          constructor
          · exact fun x hx => iht.1 x hx
          · intro x hx
            rcases List.mem_cons.mp hx with h | h
            · rw [h, trimS_idem]
              exact stripNumStep_trim_ne l hpl.1 hnum
            · exact iht.2 x h
        · split
          · constructor
            · exact fun x hx => iht.1 x hx
            · intro x hx
              rcases List.mem_append.mp hx with h | h
              · exact splitSent_trim l x h
              · exact iht.2 x h
          · exact ⟨fun x hx => iht.1 x hx, fun x hx => iht.2 x hx⟩

/-- The header strategy only emits trim-surviving ingredients and
instructions. -/
theorem strategyA_trim (lines : List String) (sv : Option String) (u : String)
    (ii jj : Option Nat) :
    (∀ x ∈ (strategyA lines sv u ii jj).ingredients, trimS x ≠ "") ∧
    (∀ x ∈ (strategyA lines sv u ii jj).instructions, trimS x ≠ "") := by
  unfold strategyA
  dsimp only
  constructor
  · intro x hx
    split at hx
    · simp at hx
    · rw [List.mem_filterMap] at hx
      obtain ⟨a, _, hfa⟩ := hx
      split at hfa
      · rename_i hcond
        cases hfa
        rw [Bool.and_eq_true] at hcond
        exact trimS_trim_ne _ (by simpa using hcond.1)
      · cases hfa
  · intro x hx
    split at hx
    · simp at hx
    · rw [List.mem_filterMap] at hx
      obtain ⟨a, _, hfa⟩ := hx
      split at hfa
      · cases hfa
      · rename_i hcond
        cases hfa
        have h1 : (trimS (stripBullet (stripStepNum a))).data.isEmpty = false := by
          by_cases he : (trimS (stripBullet (stripStepNum a))).data.isEmpty = true
          · exact absurd (by simp [he]) hcond
          · exact Bool.eq_false_iff.mpr he
        exact trimS_trim_ne _ h1

/-- The score strategy only emits trim-surviving ingredients and
instructions, given trimmed non-empty lines. -/
theorem strategyB_trim (lines : List String) (sv : Option String) (u : String)
    (hinv : ∀ l ∈ lines, trimS l = l ∧ l.data.isEmpty = false) :
    (∀ x ∈ (strategyB lines sv u).ingredients, trimS x ≠ "") ∧
    (∀ x ∈ (strategyB lines sv u).instructions, trimS x ≠ "") := by
  unfold strategyB
  dsimp only
  split
  · constructor
    · intro x hx
      rw [List.mem_filterMap] at hx
      obtain ⟨l, _, hfa⟩ := hx
      split at hfa
      · cases hfa
      · rename_i hcond
        cases hfa
        exact trimS_trim_ne _ (Bool.eq_false_iff.mpr hcond)
    · intro x hx
      rw [List.mem_flatMap] at hx
      obtain ⟨l, hl, hfx⟩ := hx
      split at hfx
      · simp at hfx
      · split at hfx
        · exact splitSent_trim _ _ hfx
        · split at hfx
          · simp at hfx
          · rename_i hcond
            rw [List.mem_singleton] at hfx
            rw [hfx, trimS_idem]
            exact ne_empty_of_isEmpty _ (Bool.eq_false_iff.mpr hcond)
  · have hs : ∀ p ∈ (lines.map fun l =>
        (l, scoreIngredient l, scoreInstruction l)).drop
          (((lines.take 5).findIdx? decoratedOrCaps).getD 0 + 1),
        trimS p.1 = p.1 ∧ p.1.data.isEmpty = false := by
      intro p hp
      have hp2 := List.mem_of_mem_drop hp
      rw [List.mem_map] at hp2
      obtain ⟨l, hl, rfl⟩ := hp2
      exact hinv l hl
    have hf := fallbackClassify_trim _ hs
    exact ⟨fun x hx => hf.1 x hx, fun x hx => hf.2 x hx⟩

/-- The heuristic extractor only emits trim-surviving ingredients and
instructions. -/
theorem heuristic_trim (page : PageModel) (u : String) :
    (∀ x ∈ (extractRecipeHeuristic page u).ingredients, trimS x ≠ "") ∧
    (∀ x ∈ (extractRecipeHeuristic page u).instructions, trimS x ≠ "") := by
  unfold extractRecipeHeuristic
  dsimp only
  constructor
  · intro x hx
    rw [List.mem_filterMap] at hx
    obtain ⟨a, _, hfa⟩ := hx
    split at hfa
    · cases hfa
    · rename_i hcond
      cases hfa
      exact trimS_trim_ne _ (Bool.eq_false_iff.mpr hcond)
  · intro x hx
    rw [List.mem_filterMap] at hx
    obtain ⟨a, _, hfa⟩ := hx
    split at hfa
    · cases hfa
    · rename_i hcond
      cases hfa
      exact trimS_trim_ne _ (Bool.eq_false_iff.mpr hcond)

/-- Normalised instruction lists never contain the empty string. -/
theorem normalizeInstructions_ne (o : Option Json) :
    ∀ x ∈ normalizeInstructions o, x ≠ "" := by
  intro x hx
  unfold normalizeInstructions at hx
  split at hx
  · simp at hx
  · split at hx
    · simp at hx
    · split at hx
      · split at hx
        · simp at hx
        · rename_i hne'
          rw [List.mem_singleton] at hx
          rw [hx]
          exact ne_empty_of_isEmpty _ (Bool.eq_false_iff.mpr hne')
      · rw [List.mem_filter] at hx
        exact ne_empty_of_isEmpty _ (by simpa using hx.2)
      · simp at hx

/-- The JSON-LD field mapping: ingredients survive trimming; no instruction
is the empty string. -/
theorem mapCandidate_trim (f : List (String × Json)) :
    (∀ x ∈ (mapCandidate f).ingredients, trimS x ≠ "") ∧
    (∀ x ∈ (mapCandidate f).instructions, x ≠ "") := by
  unfold mapCandidate
  dsimp only
  constructor
  · intro x hx
    split at hx
    · rw [List.mem_filter] at hx
      obtain ⟨hm, hne⟩ := hx
      rw [List.mem_map] at hm
      obtain ⟨y, _, hy⟩ := hm
      have hxx : trimS x = x := by rw [← hy, trimS_idem]
      rw [hxx]
      exact ne_empty_of_isEmpty _ (by simpa using hne)
    · simp at hx
  · exact fun x hx => normalizeInstructions_ne _ x hx

/-- A successful candidate scan returns a field mapping. -/
theorem scanCandidates_shape (cs : List Json) (r : RecipeData)
    (h : scanCandidates cs = some r) : ∃ f, r = mapCandidate f := by
  induction cs with
  | nil => simp [scanCandidates] at h
  | cons c t ih =>
    cases c with
    | obj f =>
      unfold scanCandidates at h
      split at h
      · cases h
        exact ⟨f, rfl⟩
      · exact ih h
    | null => exact ih h
    | bool b => exact ih h
    | num n => exact ih h
    | str s => exact ih h
    | arr xs => exact ih h

/-- A successful JSON-LD extraction returns a field mapping. -/
theorem extractJsonLd_shape (blocks : List (Option Json)) (r : RecipeData)
    (h : extractRecipeFromJsonLd blocks = some r) : ∃ f, r = mapCandidate f := by
  induction blocks with
  | nil => simp [extractRecipeFromJsonLd] at h
  | cons b rest ih =>
    cases b with
    | none => exact ih h
    | some j =>
      unfold extractRecipeFromJsonLd at h
      split at h
      · exact ih h
      · split at h
        · rename_i heq
          cases h
          exact scanCandidates_shape _ _ heq
        · exact ih h

/-- C5 is refuted on the JSON-LD path: a whitespace-only string-typed
`recipeInstructions` survives untrimmed, so the returned instructions
contain an element that is empty after trimming. -/
theorem jsonld_whitespace_instruction_counterexample :
    (extractRecipeFromJsonLd
        [some (Json.obj [("@type", Json.str "Recipe"), ("name", Json.str "Soup"),
          ("recipeInstructions", Json.str " ")])]).map RecipeData.instructions
      = some [" "] ∧
    trimS " " = "" := by
  exact ⟨by decide, by decide⟩

/-- C5 (amended).  On the Instagram-caption and DOM-heuristic paths every
returned ingredient and instruction is non-empty after trimming; on the
JSON-LD path every ingredient is non-empty after trimming and no
instruction is the empty string, but a whitespace-only string-typed
`recipeInstructions` passes through untrimmed, so JSON-LD instructions
need not survive a trim. -/
theorem extraction_trim_invariant :
    (∀ caption u x, x ∈ (parseInstagramCaption caption u).ingredients → trimS x ≠ "") ∧
    (∀ caption u x, x ∈ (parseInstagramCaption caption u).instructions → trimS x ≠ "") ∧
    (∀ page u x, x ∈ (extractRecipeHeuristic page u).ingredients → trimS x ≠ "") ∧
    (∀ page u x, x ∈ (extractRecipeHeuristic page u).instructions → trimS x ≠ "") ∧
    (∀ blocks r x, extractRecipeFromJsonLd blocks = some r →
      x ∈ r.ingredients → trimS x ≠ "") ∧
    (∀ blocks r x, extractRecipeFromJsonLd blocks = some r →
      x ∈ r.instructions → x ≠ "") := by
  have hcap : ∀ caption u : String,
      (∀ x ∈ (parseInstagramCaption caption u).ingredients, trimS x ≠ "") ∧
      (∀ x ∈ (parseInstagramCaption caption u).instructions, trimS x ≠ "") := by
    intro caption u
    unfold parseInstagramCaption
    dsimp only
    split
    · exact strategyA_trim _ _ _ _ _
    · exact strategyB_trim _ _ _ (processedLines_inv caption)
  refine ⟨fun c u x hx => (hcap c u).1 x hx, fun c u x hx => (hcap c u).2 x hx,
    fun p u x hx => (heuristic_trim p u).1 x hx,
    fun p u x hx => (heuristic_trim p u).2 x hx, ?_, ?_⟩
  · intro blocks r x h hx
    obtain ⟨f, rfl⟩ := extractJsonLd_shape blocks r h
    exact (mapCandidate_trim f).1 x hx
  · intro blocks r x h hx
    obtain ⟨f, rfl⟩ := extractJsonLd_shape blocks r h
    exact (mapCandidate_trim f).2 x hx

/-- Witness for the amended C5 on concrete inputs of both families. -/
theorem extraction_trim_invariant_witness :
    ("1 cup flour" ∈ (parseInstagramCaption
        "My Pasta\nIngredients\n1 cup flour\n2 eggs\nInstructions\nMix\nBake"
        "u").ingredients) ∧
    trimS "1 cup flour" ≠ "" ∧
    (extractRecipeFromJsonLd [some (Json.obj [("@type", Json.str "Recipe"),
        ("name", Json.str "Soup"),
        ("recipeIngredient", Json.arr [Json.str " 1 dl cream "])])]
      = some (mapCandidate [("@type", Json.str "Recipe"), ("name", Json.str "Soup"),
        ("recipeIngredient", Json.arr [Json.str " 1 dl cream "])])) ∧
    trimS "1 dl cream" ≠ "" := by
  refine ⟨by decide, ?_, by decide, ?_⟩
  · exact extraction_trim_invariant.1
      "My Pasta\nIngredients\n1 cup flour\n2 eggs\nInstructions\nMix\nBake" "u"
      "1 cup flour" (by decide)
  · exact extraction_trim_invariant.2.2.2.2.1
      [some (Json.obj [("@type", Json.str "Recipe"), ("name", Json.str "Soup"),
        ("recipeIngredient", Json.arr [Json.str " 1 dl cream "])])]
      (mapCandidate [("@type", Json.str "Recipe"), ("name", Json.str "Soup"),
        ("recipeIngredient", Json.arr [Json.str " 1 dl cream "])])
      "1 dl cream" (by decide) (by decide)

/-! ## C8: the result's sourceUrl is the original trimmed URL -/

/-- Strategy A stamps the caller's URL. -/
theorem strategyA_sourceUrl (lines : List String) (servings : Option String)
    (u : String) (ii jj : Option Nat) :
    (strategyA lines servings u ii jj).sourceUrl = u := rfl

/-- Strategy B stamps the caller's URL on both of its branches. -/
theorem strategyB_sourceUrl (lines : List String) (servings : Option String)
    (u : String) : (strategyB lines servings u).sourceUrl = u := by
  unfold strategyB
  dsimp only
  split <;> rfl

/-- The caption parser stamps the caller's URL. -/
theorem parseInstagramCaption_sourceUrl (caption u : String) :
    (parseInstagramCaption caption u).sourceUrl = u := by
  unfold parseInstagramCaption
  dsimp only
  split
  · exact strategyA_sourceUrl ..
  · exact strategyB_sourceUrl ..

/-- The heuristic extractor stamps the caller's URL. -/
theorem extractRecipeHeuristic_sourceUrl (page : PageModel) (u : String) :
    (extractRecipeHeuristic page u).sourceUrl = u := rfl

/-- Any success of the orchestrator body carries the URL it was given. -/
theorem parseUrlGivenUrl_sourceUrl (url : String) (insta : InstaFetch)
    (resp : HttpResponse) (page : PageModel) (r : RecipeData)
    (h : parseUrlGivenUrl url insta resp page = .success r) : r.sourceUrl = url := by
  unfold parseUrlGivenUrl at h
  repeat' split at h
  all_goals cases h
  all_goals
    first
      | rfl
      | exact parseInstagramCaption_sourceUrl ..
      | exact extractRecipeHeuristic_sourceUrl ..

/-- C8.  Every successful extraction carries the original user-supplied URL
(as entered, trimmed) as `sourceUrl`: the JSON-LD path backfills it after
extraction, and the caption and heuristic paths receive it directly — never
an internal embed or fetch URL. -/
theorem sourceUrl_is_original (urlInput : Option String) (insta : InstaFetch)
    (resp : HttpResponse) (page : PageModel) (r : RecipeData)
    (h : parseUrlFromFormData urlInput insta resp page = .success r) :
    r.sourceUrl = trimS (urlInput.getD "") :=
  parseUrlGivenUrl_sourceUrl (trimS (urlInput.getD "")) insta resp page r h

/-- Witness for C8 on the heuristic path (empty page, valid URL with
surrounding whitespace trimmed away). -/
theorem sourceUrl_is_original_witness :
    (extractRecipeHeuristic ⟨[], none, "", none, none, none, [], []⟩
      "https://example.com/recipe").sourceUrl = trimS ((some " https://example.com/recipe ").getD "") :=
  sourceUrl_is_original (some " https://example.com/recipe ") (.fetchError "boom")
    ⟨true, "", "text/html", some []⟩ ⟨[], none, "", none, none, none, [], []⟩
    (extractRecipeHeuristic ⟨[], none, "", none, none, none, [], []⟩
      "https://example.com/recipe")
    (by decide)

/-- Witness for C9: a single chunk one byte over the cap fails. -/
theorem sizeCap_failure_witness :
    parseUrlFromFormData (some "https://example.com/recipe") (.fetchError "boom")
      ⟨true, "", "text/html", some [List.replicate (MAX_BODY_SIZE + 1) 0]⟩
      ⟨[], none, "", none, none, none, [], []⟩ =
      .failure "Page content is too large." :=
  sizeCap_failure (some "https://example.com/recipe") (.fetchError "boom")
    ⟨true, "", "text/html", some [List.replicate (MAX_BODY_SIZE + 1) 0]⟩
    ⟨[], none, "", none, none, none, [], []⟩
    [List.replicate (MAX_BODY_SIZE + 1) 0] rfl
    (by simp only [List.map_cons, List.map_nil, List.sum_cons, List.sum_nil,
      List.length_replicate]; omega)
    (by decide) (by decide) (by decide) rfl (Or.inl (by decide))

/-! ## C1: the cluster search picks the first longest run of length at
least two -/

/-- `enumFrom` distributes over append. -/
theorem enumFrom_append {α : Type} (xs ys : List α) (n : Nat) :
    List.enumFrom n (xs ++ ys) = List.enumFrom n xs ++ List.enumFrom (n + xs.length) ys := by
  induction xs generalizing n with
  | nil => simp
  | cons a t ih =>
    simp only [List.cons_append, List.enumFrom_cons, ih, List.length_cons]
    rw [show n + 1 + t.length = n + (t.length + 1) from by omega]

/-- The head left by `dropWhile` fails the predicate. -/
theorem dropWhile_head_false {α : Type} (p : α → Bool) (l : List α) (a : α) (t : List α)
    (h : l.dropWhile p = a :: t) : p a = false := by
  induction l with
  | nil => cases h
  | cons b u ih =>
    rw [List.dropWhile_cons] at h
    by_cases hb : p b = true
    · rw [if_pos hb] at h
      exact ih h
    · rw [if_neg hb] at h
      cases h
      exact Bool.eq_false_iff.mpr hb

/-- While a run is open, true entries leave the scan state unchanged. -/
theorem scan_trues (u : List Bool) (hm : ∀ b ∈ u, b = true) :
    ∀ (m : Nat) (st : ClusterSt), st.cur ≥ 0 →
    (List.enumFrom m u).foldl clusterStep st = st := by
  induction u with
  | nil =>
    intro m st _
    rfl
  | cons b v ih =>
    intro m st hc
    have hb : b = true := hm b (List.mem_cons_self b v)
    subst hb
    show (List.enumFrom (m + 1) v).foldl clusterStep (clusterStep st (m, true)) = st
    have hstep : clusterStep st (m, true) = st := by
      unfold clusterStep
      dsimp only
      rw [if_pos rfl, if_neg (by omega)]
    rw [hstep]
    exact ih (fun x hx => hm x (List.mem_cons_of_mem _ hx)) (m + 1) st hc

/-- A `-1`-sentinel state finishes to the best run folded so far. -/
theorem answerOf_closed (st : ClusterSt) (n : Int) (acc : Option (Nat × Nat))
    (hrel : relState acc st) : answerOf st n = foldAnswer acc := by
  obtain ⟨hcur, hrel2⟩ := hrel
  unfold answerOf foldAnswer
  dsimp only
  rw [hcur]
  rcases hrel2 with ⟨hn, h1, h2⟩ | ⟨s, e, ha, hse, h1, h2⟩
  · subst hn
    rw [h1, h2]
    simp
  · subst ha
    rw [h1, h2]
    by_cases hth : 2 ≤ e - s
    · simp [hth, show (2 : Int) ≤ (e : Int) - (s : Int) from by omega]
    · simp [hth, show ¬((2 : Int) ≤ (e : Int) - (s : Int)) from by omega]

/-- An open run reaching the end of the list is closed against position `n`
and folded like any other run. -/
theorem answerOf_open (bs be : Int) (acc : Option (Nat × Nat)) (c n : Nat) (hcn : c < n)
    (hrel2 : (acc = none ∧ bs = -1 ∧ be = -1) ∨
      ∃ s e : Nat, acc = some (s, e) ∧ s < e ∧ bs = (s : Int) ∧ be = (e : Int)) :
    answerOf ⟨bs, be, (c : Int)⟩ ((n : Nat) : Int) = foldAnswer (stepBest acc (c, n)) := by
  unfold answerOf stepBest foldAnswer
  dsimp only
  rcases hrel2 with ⟨hn, h1, h2⟩ | ⟨s, e, ha, hse, h1, h2⟩
  · subst hn
    subst h1
    subst h2
    by_cases hth : 2 ≤ n - c
    · simp [hcn, hth, show ((n : Int) - (c : Int) > (-1 : Int) - (-1 : Int)) from by omega,
        show (2 : Int) ≤ (n : Int) - (c : Int) from by omega]
    · simp [hcn, hth, show ((n : Int) - (c : Int) > (-1 : Int) - (-1 : Int)) from by omega,
        show ¬((2 : Int) ≤ (n : Int) - (c : Int)) from by omega]
  · subst ha
    subst h1
    subst h2
    by_cases hwin : n - c > e - s
    · by_cases hth : 2 ≤ n - c
      · simp [hwin, hth,
          show ((n : Int) - (c : Int) > (e : Int) - (s : Int)) from by omega,
          show (2 : Int) ≤ (n : Int) - (c : Int) from by omega]
      · simp [hwin, hth,
          show ((n : Int) - (c : Int) > (e : Int) - (s : Int)) from by omega,
          show ¬((2 : Int) ≤ (n : Int) - (c : Int)) from by omega]
    · by_cases hth : 2 ≤ e - s
      · simp [hwin, hth,
          show ¬((n : Int) - (c : Int) > (e : Int) - (s : Int)) from by omega,
          show (2 : Int) ≤ (e : Int) - (s : Int) from by omega]
      · simp [hwin, hth,
          show ¬((n : Int) - (c : Int) > (e : Int) - (s : Int)) from by omega,
          show ¬((2 : Int) ≤ (e : Int) - (s : Int)) from by omega]

/-- Closing an open run on a false entry folds it into the best, exactly as
`stepBest` does. -/
theorem close_step (bs be : Int) (acc : Option (Nat × Nat)) (c m : Nat) (hcm : c < m)
    (hrel2 : (acc = none ∧ bs = -1 ∧ be = -1) ∨
      ∃ s e : Nat, acc = some (s, e) ∧ s < e ∧ bs = (s : Int) ∧ be = (e : Int)) :
    relState (stepBest acc (c, m)) (clusterStep ⟨bs, be, (c : Int)⟩ (m, false)) := by
  have hstep : clusterStep ⟨bs, be, (c : Int)⟩ (m, false)
      = if ((m : Nat) : Int) - (c : Nat) > be - bs then ⟨(c : Int), ((m : Nat) : Int), -1⟩
        else ⟨bs, be, -1⟩ := by
    unfold clusterStep
    dsimp only
    by_cases h : ((m : Nat) : Int) - ((c : Nat) : Int) > be - bs
    · simp [h]
    · simp [h]
  rcases hrel2 with ⟨hn, h1, h2⟩ | ⟨s, e, ha, hse, h1, h2⟩
  · subst hn
    subst h1
    subst h2
    rw [hstep, if_pos (by omega)]
    exact ⟨rfl, Or.inr ⟨c, m, rfl, hcm, rfl, rfl⟩⟩
  · subst ha
    subst h1
    subst h2
    by_cases hwin : m - c > e - s
    · rw [hstep, if_pos (by omega)]
      refine ⟨rfl, Or.inr ⟨c, m, ?_, hcm, rfl, rfl⟩⟩
      show stepBest (some (s, e)) (c, m) = some (c, m)
      unfold stepBest
      dsimp only
      rw [if_pos hwin]
    · rw [hstep, if_neg (by omega)]
      refine ⟨rfl, Or.inr ⟨s, e, ?_, hse, rfl, rfl⟩⟩
      show stepBest (some (s, e)) (c, m) = some (s, e)
      unfold stepBest
      dsimp only
      rw [if_neg hwin]

/-- The scan from any `-1`-sentinel state computes the fold of `stepBest`
over the remaining maximal runs. -/
theorem scan_spec (N : Nat) : ∀ (t : List Bool), t.length ≤ N →
    ∀ (i : Nat) (st : ClusterSt) (acc : Option (Nat × Nat)), relState acc st →
    answerOf ((List.enumFrom i t).foldl clusterStep st) ((i + t.length : Nat) : Int) =
      foldAnswer ((trueRuns i t).foldl stepBest acc) := by
  induction N with
  | zero =>
    intro t ht i st acc hrel
    have ht0 : t = [] := List.length_eq_zero.mp (Nat.le_zero.mp ht)
    subst ht0
    rw [show trueRuns i [] = [] from by conv_lhs => rw [trueRuns]]
    exact answerOf_closed st _ acc hrel
  | succ N ih =>
    intro t ht i st acc hrel
    cases t with
    | nil =>
      rw [show trueRuns i [] = [] from by conv_lhs => rw [trueRuns]]
      exact answerOf_closed st _ acc hrel
    | cons b t' =>
      obtain ⟨hcur, hrel2⟩ := hrel
      cases b with
      | false =>
        have hstep : clusterStep st (i, false) = ⟨st.bestS, st.bestE, -1⟩ := by
          unfold clusterStep
          dsimp only
          rw [if_neg Bool.false_ne_true]
          rw [if_neg (by
            simp only [hcur, Bool.and_eq_true, decide_eq_true_eq, ge_iff_le]
            omega)]
        show answerOf ((List.enumFrom (i + 1) t').foldl clusterStep (clusterStep st (i, false)))
            ((i + (t'.length + 1) : Nat) : Int) = _
        rw [hstep]
        rw [show trueRuns i (false :: t') = trueRuns (i + 1) t' from by
          conv_lhs => rw [trueRuns]]
        rw [show ((i + (t'.length + 1) : Nat) : Int) = ((i + 1 + t'.length : Nat) : Int) from by
          omega]
        exact ih t' (by simp only [List.length_cons] at ht; omega) (i + 1)
          ⟨st.bestS, st.bestE, -1⟩ acc ⟨rfl, hrel2⟩
      | true =>
        have hsplit : t' = t'.takeWhile id ++ t'.drop (t'.takeWhile id).length := by
          conv_lhs => rw [← List.take_append_drop (t'.takeWhile id).length t']
          rw [take_length_takeWhile]
        have hst1 : clusterStep st (i, true) = ⟨st.bestS, st.bestE, (i : Int)⟩ := by
          unfold clusterStep
          dsimp only
          rw [if_pos rfl, if_pos (by rw [hcur]; decide)]
        have htrues : ∀ x ∈ t'.takeWhile id, x = true := fun x hx => by
          simpa using List.mem_takeWhile_imp hx
        have hlen : t'.length
            = (t'.takeWhile id).length + (t'.drop (t'.takeWhile id).length).length := by
          conv_lhs => rw [hsplit]
          exact List.length_append _ _
        show answerOf ((List.enumFrom (i + 1) t').foldl clusterStep (clusterStep st (i, true)))
            ((i + (t'.length + 1) : Nat) : Int) = _
        rw [hst1]
        rw [show List.enumFrom (i + 1) t'
            = List.enumFrom (i + 1) (t'.takeWhile id) ++
              List.enumFrom (i + 1 + (t'.takeWhile id).length)
                (t'.drop (t'.takeWhile id).length) from by
          conv_lhs => rw [hsplit]
          rw [enumFrom_append]]
        rw [List.foldl_append]
        rw [scan_trues (t'.takeWhile id) htrues (i + 1) ⟨st.bestS, st.bestE, (i : Int)⟩
          (Int.natCast_nonneg i)]
        rw [show trueRuns i (true :: t')
            = (i, i + 1 + (t'.takeWhile id).length)
              :: trueRuns (i + 1 + (t'.takeWhile id).length)
                (t'.drop (t'.takeWhile id).length) from by
          conv_lhs => rw [trueRuns]]
        rw [List.foldl_cons]
        cases hv : t'.drop (t'.takeWhile id).length with
        | nil =>
          rw [show trueRuns (i + 1 + (t'.takeWhile id).length) ([] : List Bool) = [] from by
            conv_lhs => rw [trueRuns]]
          rw [hv] at hlen
          rw [show ((i + (t'.length + 1) : Nat) : Int)
              = ((i + 1 + (t'.takeWhile id).length : Nat) : Int) from by
            simp only [List.length_nil] at hlen
            omega]
          exact answerOf_open st.bestS st.bestE acc i (i + 1 + (t'.takeWhile id).length)
            (by omega) hrel2
        | cons b2 rest =>
          have hb2 : b2 = false := by
            have hdw : t'.drop (t'.takeWhile id).length = t'.dropWhile id := by
              have h0 : t'.takeWhile id ++ t'.drop (t'.takeWhile id).length
                  = t'.takeWhile id ++ t'.dropWhile id := by
                rw [← hsplit, List.takeWhile_append_dropWhile]
              exact List.append_cancel_left h0
            have hh := dropWhile_head_false id t' b2 rest (by rw [← hdw, hv])
            simpa using hh
          subst hb2
          rw [hv] at hlen
          show answerOf ((List.enumFrom (i + 1 + (t'.takeWhile id).length + 1) rest).foldl
              clusterStep (clusterStep ⟨st.bestS, st.bestE, (i : Int)⟩
                (i + 1 + (t'.takeWhile id).length, false))) _ = _
          have hrel' := close_step st.bestS st.bestE acc i (i + 1 + (t'.takeWhile id).length)
            (by omega) hrel2
          have hlength : rest.length ≤ N := by
            simp only [List.length_cons] at ht hlen
            omega
          rw [show trueRuns (i + 1 + (t'.takeWhile id).length) (false :: rest)
              = trueRuns (i + 1 + (t'.takeWhile id).length + 1) rest from by
            conv_lhs => rw [trueRuns]]
          rw [show ((i + (t'.length + 1) : Nat) : Int)
              = ((i + 1 + (t'.takeWhile id).length + 1 + rest.length : Nat) : Int) from by
            simp only [List.length_cons] at hlen
            omega]
          exact ih rest hlength (i + 1 + (t'.takeWhile id).length + 1)
            (clusterStep ⟨st.bestS, st.bestE, (i : Int)⟩
              (i + 1 + (t'.takeWhile id).length, false))
            (stepBest acc (i, i + 1 + (t'.takeWhile id).length)) hrel'

/-- The source's cluster search equals the specification's first longest
run with the sub-2-length discard. -/
theorem findBestCluster_eq (ps : List Bool) : findBestCluster ps = longestRunSpec ps := by
  have h := scan_spec ps.length ps (le_refl _) 0 ⟨-1, -1, -1⟩ none
    ⟨rfl, Or.inl ⟨rfl, rfl, rfl⟩⟩
  rw [show ((0 + ps.length : Nat) : Int) = ((ps.length : Nat) : Int) from by omega] at h
  show answerOf (clusterScan ps) ((ps.length : Nat) : Int)
      = foldAnswer (firstLongestRun (trueRuns 0 ps))
  exact h

/-- C1.  For every caption in which the header strategy finds neither an
ingredient nor an instruction header, the parser falls through to the
score strategy on the preprocessed lines, and its cluster search selects
exactly the specification's cluster: the first longest run of consecutive
lines whose ingredient score is at least 0.3 and exceeds the instruction
score, runs shorter than two lines discarded. -/
theorem cluster_longest_run (caption u : String)
    (h1 : List.findIdx? ingHeaderRE (processedLines caption) = none)
    (h2 : List.findIdx? insHeaderRE (processedLines caption) = none) :
    parseInstagramCaption caption u =
      strategyB (processedLines caption)
        (extractServings (stripUsername (cleanInstagramCaption caption))).1 u ∧
    ∀ ps : List Bool, findBestCluster ps = longestRunSpec ps := by
  constructor
  · unfold processedLines at h1 h2
    unfold parseInstagramCaption processedLines
    dsimp only
    rw [h1, h2]
    rfl
  · exact findBestCluster_eq

/-- Witness for C1 at a header-free caption. -/
theorem cluster_longest_run_witness :
    (parseInstagramCaption "Tasty\n1 dl cream\n2 eggs\nsalt" "u" =
      strategyB (processedLines "Tasty\n1 dl cream\n2 eggs\nsalt")
        (extractServings (stripUsername
          (cleanInstagramCaption "Tasty\n1 dl cream\n2 eggs\nsalt"))).1 "u") ∧
    ∀ ps : List Bool, findBestCluster ps = longestRunSpec ps :=
  cluster_longest_run "Tasty\n1 dl cream\n2 eggs\nsalt" "u" (by decide) (by decide)

end Savorit
